import Mathlib

/-!
# Guardian — File Integrity Monitor: a shallow embedding of `guardian.py`

This file embeds the core of the Guardian FIM (`src/guardian.py`) in Lean 4 and
proves the specification claims about it:

* the data model (`FileInfo`, `ChangeReport`, `ChangeType`) from the Python
  dataclasses;
* the diff engine of `Guardian.check_integrity` (three-way set comparison keyed
  by path, deciding MODIFIED solely on the SHA-256 digest);
* the scanner (`GuardianScanner.scan_directory`) over an explicit filesystem
  tree model, with the exclusion filter (`_should_exclude`, glob patterns and
  path-prefix rules), the size gate, and the fingerprinter
  (`_calculate_hashes`, modelled with the digest algorithms as parameters and a
  read failure returning three empty strings);
* the size-string parser (`_parse_size`), with Python's `str`/`float()`/
  `int()` behaviour embedded over `List Char` — including exponents,
  `inf`/`nan`, underscore separators and the overflow of `float()` to
  infinity — returning a `ParseSizeResult` that distinguishes the 100 MB
  `ValueError` fallback from the uncaught `OverflowError` that `int()` of
  an infinite value raises;
* the baseline store (`GuardianDatabase`): baseline rows, file rows, change
  history, `create_baseline`, `get_baseline_files`, `get_latest_baseline`
  (SQL `ORDER BY created_at DESC LIMIT 1` over rows whose `path` matches),
  `record_changes`; and the two pipeline operations `Guardian.create_baseline`
  and `Guardian.check_integrity`.

Python dicts are embedded as association lists in insertion order with
last-write-wins insertion (`dictInsert`); machine-level side effects (logging)
are modelled as explicit result fields where a claim depends on them.
-/

/-- `ChangeType` enum from `guardian.py`: types of file changes detected. -/
inductive ChangeType where
  | ADDED
  | MODIFIED
  | REMOVED
  | UNCHANGED
deriving DecidableEq, Repr

/-- `FileInfo` dataclass: information about a file for integrity monitoring.
`modified_time` (a Python float) is embedded as `Rat`; sizes are `Nat`
(Python ints from `os.stat`, nonnegative). -/
structure FileInfo where
  path : String
  size : Nat
  modified_time : Rat
  hash_sha256 : String
  hash_sha1 : String
  hash_md5 : String
  permissions : String
  inode : Option Nat := none
deriving DecidableEq, Repr

/-- `ChangeReport` dataclass: one detected change.  The `timestamp` field
(set to `datetime.now()` in `__post_init__`) is a wall-clock side effect not
consulted by any claim and is not carried in the embedding. -/
structure ChangeReport where
  change_type : ChangeType
  file_path : String
  old_hash : Option String := none
  new_hash : Option String := none
  old_size : Option Nat := none
  new_size : Option Nat := none
deriving DecidableEq, Repr

/-! ## Python dicts as association lists -/

/-- Keys of an association list (a Python dict keyed by path). -/
def mapKeys (m : List (String × FileInfo)) : List String := m.map Prod.fst

/-- Python `d[k]` / `k in d` membership: first (and, for genuine dicts, only)
entry with the given key. -/
def lookupPath : List (String × FileInfo) → String → Option FileInfo
  | [], _ => none
  | kv :: m, p => if kv.1 = p then some kv.2 else lookupPath m p

/-- Python dict insertion `d[k] = v`: overwrite in place if the key is
present, else append (insertion order preserved). -/
def dictInsert (m : List (String × FileInfo)) (k : String) (v : FileInfo) :
    List (String × FileInfo) :=
  if m.any (fun kv => kv.1 = k) then
    m.map (fun kv => if kv.1 = k then (k, v) else kv)
  else
    m ++ [(k, v)]

/-- `{f.path: f for f in current_files}` from `check_integrity`. -/
def dictOfFiles (files : List FileInfo) : List (String × FileInfo) :=
  files.foldl (fun m f => dictInsert m f.path f) []

/-! ## The diff engine of `Guardian.check_integrity` (lines 564–598)

The first loop walks the baseline dict and classifies each path as MODIFIED
(present in both, SHA-256 digests differ), UNCHANGED (present in both, equal
digests — no record) or REMOVED (absent from the current dict); the second
loop walks the current dict and classifies paths absent from the baseline as
ADDED. -/

/-- Body of the first loop of `check_integrity`, for one baseline entry. -/
def mrcStep (current : List (String × FileInfo)) (kv : String × FileInfo) :
    Option ChangeReport :=
  match lookupPath current kv.1 with
  | some current_file =>
      if kv.2.hash_sha256 ≠ current_file.hash_sha256 then
        some { change_type := .MODIFIED, file_path := kv.1,
               old_hash := some kv.2.hash_sha256,
               new_hash := some current_file.hash_sha256,
               old_size := some kv.2.size,
               new_size := some current_file.size }
      else none
  | none =>
      some { change_type := .REMOVED, file_path := kv.1,
             old_hash := some kv.2.hash_sha256 }

/-- First loop of `check_integrity`: modified and removed files. -/
def modifiedRemovedChanges (baseline current : List (String × FileInfo)) :
    List ChangeReport :=
  baseline.filterMap (mrcStep current)

/-- Body of the second loop of `check_integrity`, for one current entry. -/
def addedStep (baseline : List (String × FileInfo)) (kv : String × FileInfo) :
    Option ChangeReport :=
  if (lookupPath baseline kv.1).isSome then none
  else
    some { change_type := .ADDED, file_path := kv.1,
           new_hash := some kv.2.hash_sha256,
           new_size := some kv.2.size }

/-- Second loop of `check_integrity`: added files. -/
def addedChanges (baseline current : List (String × FileInfo)) :
    List ChangeReport :=
  current.filterMap (addedStep baseline)

/-- The complete comparison performed by `Guardian.check_integrity`, as a
function of the two path-keyed dicts. -/
def check_integrity_diff (baseline current : List (String × FileInfo)) :
    List ChangeReport :=
  modifiedRemovedChanges baseline current ++ addedChanges baseline current

/-- The records the diff emits for one particular path. -/
def recordsFor (l : List ChangeReport) (p : String) : List ChangeReport :=
  l.filter (fun r => r.file_path = p)

/-- Number of records of one change type in a diff result. -/
def countType (l : List ChangeReport) (ct : ChangeType) : Nat :=
  (l.filter (fun r => r.change_type = ct)).length

/-- Paths present in both dicts whose SHA-256 digests agree (the implicit
UNCHANGED category: these produce no record). -/
def unchangedCount (baseline current : List (String × FileInfo)) : Nat :=
  (baseline.filter fun kv =>
    match lookupPath current kv.1 with
    | some cf => kv.2.hash_sha256 = cf.hash_sha256
    | none => false).length

/-! ### Sanity checks on concrete inputs -/

def fiDemo (p : String) (sha : String) : FileInfo :=
  { path := p, size := 5, modified_time := 0, hash_sha256 := sha,
    hash_sha1 := "s1", hash_md5 := "m5", permissions := "644", inode := some 1 }

example :
    check_integrity_diff
      [("/a", fiDemo "/a" "h1"), ("/b", fiDemo "/b" "h2")]
      [("/a", fiDemo "/a" "h1x"), ("/c", fiDemo "/c" "h3")] =
    [{ change_type := .MODIFIED, file_path := "/a", old_hash := some "h1",
       new_hash := some "h1x", old_size := some 5, new_size := some 5 },
     { change_type := .REMOVED, file_path := "/b", old_hash := some "h2" },
     { change_type := .ADDED, file_path := "/c", new_hash := some "h3",
       new_size := some 5 }] := by decide


/-! ## Python string and glob embedding (`str` methods, `fnmatch`, `pathlib`)

`_should_exclude` and `_parse_size` use `str.upper/strip/startswith/endswith`,
`Path.match`/`Path.name` and `float()`/`int()`.  These are embedded over
`List Char` with Python semantics. -/

def pyIsSpace (c : Char) : Bool := c.isWhitespace

/-- Python `str.strip()`. -/
def pyStrip (cs : List Char) : List Char :=
  ((cs.dropWhile pyIsSpace).reverse.dropWhile pyIsSpace).reverse

/-- Python `str.upper()` on one character (ASCII letters; Guardian's size
strings and paths are ASCII). -/
def pyUpperChar (c : Char) : Char :=
  if 'a' ≤ c ∧ c ≤ 'z' then Char.ofNat (c.toNat - 32) else c

/-- Python `str.upper()`. -/
def pyUpper (cs : List Char) : List Char := cs.map pyUpperChar

/-- Python `str.startswith()`. -/
def pyStartsWith (s pre : String) : Bool := pre.toList.isPrefixOf s.toList

/-- One bracket-class member test, with `a-b` ranges
(`fnmatch.translate` semantics; a trailing `-` is a literal member). -/
def classMatch : List Char → Char → Bool
  | a :: '-' :: b :: rest, c => (a ≤ c ∧ c ≤ b) || classMatch rest c
  | a :: rest, c => a = c || classMatch rest c
  | [], _ => false

/-- Scan a bracket-class body up to the closing `]`;
`none` if unterminated. -/
def splitClassAux : List Char → List Char → Option (List Char × List Char)
  | [], _ => none
  | ']' :: rest, acc => some (acc.reverse, rest)
  | c :: rest, acc => splitClassAux rest (c :: acc)

/-- Parse what follows a `[`: optional `!` negation, a leading `]` as a
literal member, then members up to the closing `]`
(`fnmatch.translate` scanning).  `none` when there is no closing `]`,
in which case the `[` is treated literally. -/
def parseCls (ps : List Char) : Option (Bool × List Char × List Char) :=
  match ps with
  | '!' :: ']' :: r => (splitClassAux r [']']).map (fun cr => (true, cr))
  | '!' :: ps1 => (splitClassAux ps1 []).map (fun cr => (true, cr))
  | ']' :: r => (splitClassAux r [']']).map (fun cr => (false, cr))
  | _ => (splitClassAux ps []).map (fun cr => (false, cr))

/-- `fnmatch` glob matching of a pattern against a string (both as character
lists): `*` matches any sequence, `?` any one character, `[...]`/`[!...]`
bracket classes, all other characters literally.  The `fuel` argument is
initialised strictly above `ps.length + cs.length`; every recursive call
strictly decreases that sum while consuming one unit of fuel, so fuel is
exhausted only with both lists empty — where `true` is the correct answer. -/
def globMatchAux : Nat → List Char → List Char → Bool
  | _, [], cs => cs.isEmpty
  | 0, _ :: _, _ => false
  | fuel + 1, '*' :: ps, cs =>
    globMatchAux fuel ps cs ||
      (match cs with
       | [] => false
       | _ :: cs2 => globMatchAux fuel ('*' :: ps) cs2)
  | fuel + 1, '?' :: ps, cs =>
    (match cs with
     | [] => false
     | _ :: cs2 => globMatchAux fuel ps cs2)
  | fuel + 1, '[' :: ps, cs =>
    (match parseCls ps with
     | none =>
       (match cs with
        | [] => false
        | c :: cs2 => '[' = c && globMatchAux fuel ps cs2)
     | some (neg, cls, rest) =>
       (match cs with
        | [] => false
        | c :: cs2 => (classMatch cls c != neg) && globMatchAux fuel rest cs2))
  | fuel + 1, p :: ps, cs =>
    (match cs with
     | [] => false
     | c :: cs2 => p = c && globMatchAux fuel ps cs2)

/-- `fnmatch.fnmatchcase(cs, ps)` (POSIX: no case folding). -/
def globMatch (ps cs : List Char) : Bool :=
  globMatchAux (ps.length + cs.length + 1) ps cs

/-- Split a character list on `/` separators. -/
def splitSlashAux : List Char → List Char → List String
  | [], acc => [String.mk acc.reverse]
  | '/' :: rest, acc => String.mk acc.reverse :: splitSlashAux rest []
  | c :: rest, acc => splitSlashAux rest (c :: acc)

/-- `PurePosixPath` components: split on `/`, dropping empty and `.`
parts. -/
def pathParts (p : String) : List String :=
  (splitSlashAux p.toList []).filter (fun s => s ≠ "" ∧ s ≠ ".")

/-- `Path(p).name`: the final component (empty for the root). -/
def pathName (p : String) : String := (pathParts p).getLast?.getD ""

/-- `PurePath.match(pattern)` (POSIX, case-sensitive): a relative pattern is
matched against the trailing components from the right; an absolute pattern
must match the whole path.  The empty pattern (a `ValueError` in Python)
yields `false`; Guardian's configuration never supplies one. -/
def pathMatch (file_path pattern : String) : Bool :=
  let fp := pathParts file_path
  let pp := pathParts pattern
  if pp.isEmpty then false
  else if pyStartsWith pattern "/" then
    pyStartsWith file_path "/" && pp.length = fp.length &&
      (List.zip fp pp).all (fun s => globMatch s.2.toList s.1.toList)
  else
    pp.length ≤ fp.length &&
      (List.zip (fp.drop (fp.length - pp.length)) pp).all
        (fun s => globMatch s.2.toList s.1.toList)

/-! ## The scanner (`GuardianScanner`) over a filesystem model -/

/-- `GuardianScanner` state: the compiled exclude patterns, the configured
exclude path prefixes, and the parsed `max_file_size` (a Python int).  The
two configuration reads of `_should_exclude` are embedded as the lists they
produce. -/
structure GuardianScanner where
  exclude_patterns : List String
  exclude_paths : List String
  max_file_size : Int
deriving DecidableEq, Repr

/-- `GuardianScanner._should_exclude` (lines 291–306): excluded when
`Path(file_path).match(pattern)` or the base name equals a pattern, or the
path string starts with a configured excluded prefix. -/
def should_exclude (s : GuardianScanner) (file_path : String) : Bool :=
  s.exclude_patterns.any
    (fun pattern =>
      pathMatch file_path pattern || pathName file_path = pattern) ||
  s.exclude_paths.any
    (fun exclude_path => pyStartsWith file_path exclude_path)

/-- The fields of `os.stat` that Guardian reads; `permissions` carries
`oct(st_mode)[-3:]` directly. -/
structure FileStat where
  st_size : Nat
  st_mtime : Rat
  permissions : String
  st_ino : Nat
deriving DecidableEq, Repr

/-- One directory entry that `os.walk` reports as a file: `stat = none`
models `os.stat` raising `OSError` (the file is skipped and the walk
continues); `content = none` models `open`/`read` raising inside
`_calculate_hashes`. -/
structure FileEntry where
  name : String
  stat : Option FileStat
  content : Option (List Nat)
deriving DecidableEq, Repr

/-- A filesystem subtree as `os.walk` traverses it. -/
inductive FSTree where
  | file : FileEntry → FSTree
  | dir : String → List FSTree → FSTree

/-- The filesystem under the scanned root: whether the root path exists and
its entries when it does.  Directory paths are taken as already absolute
(`os.path.abspath` is the identity on them). -/
structure FileSystem where
  rootExists : Bool
  entries : List FSTree

/-- The three digest algorithms (`hashlib.sha256/sha1/md5`) as parameters of
the embedding: each maps a byte sequence to its hex digest string.  Feeding a
file through in 8192-byte chunks computes exactly the digest of the whole
byte sequence, so the model hashes the full content. -/
structure HashAlgs where
  sha256 : List Nat → String
  sha1 : List Nat → String
  md5 : List Nat → String

/-- `GuardianScanner._calculate_hashes` (lines 308–325): the three digests of
the file's bytes, or three empty strings when the file cannot be opened or
read. -/
def calculate_hashes (H : HashAlgs) (content : Option (List Nat)) :
    String × String × String :=
  match content with
  | some data => (H.sha256 data, H.sha1 data, H.md5 data)
  | none => ("", "", "")

/-- `os.path.join(root, name)` for a relative `name`. -/
def joinPath (root name : String) : String := root ++ "/" ++ name

/-- The per-file body of `scan_directory` (lines 343–375): exclusion check,
`os.stat` (a failure is logged and the file skipped), the size gate
(`st_size > max_file_size` skips), then the fingerprinter; a hash failure
still yields a record, with empty digests. -/
def processFileEntry (s : GuardianScanner) (H : HashAlgs) (root : String)
    (e : FileEntry) : Option FileInfo :=
  let file_path := joinPath root e.name
  if should_exclude s file_path then none
  else
    match e.stat with
    | none => none
    | some st =>
      if (st.st_size : Int) > s.max_file_size then none
      else
        let hashes := calculate_hashes H e.content
        some { path := file_path, size := st.st_size,
               modified_time := st.st_mtime,
               hash_sha256 := hashes.1,
               hash_sha1 := hashes.2.1,
               hash_md5 := hashes.2.2,
               permissions := st.permissions,
               inode := some st.st_ino }

mutual

/-- The `os.walk` traversal with Guardian's in-place pruning (line 341): an
excluded directory is removed from `dirs` before descent, so its entire
subtree contributes nothing.  (`os.walk` batches each directory's files
before its subdirectories; the traversal here interleaves per entry, which
permutes but never changes the set of produced records.) -/
def walkEntry (s : GuardianScanner) (H : HashAlgs) (root : String) :
    FSTree → List FileInfo
  | .file e => (processFileEntry s H root e).toList
  | .dir n children =>
    if should_exclude s (joinPath root n) then []
    else walkEntries s H (joinPath root n) children

/-- Walk all entries of one directory. -/
def walkEntries (s : GuardianScanner) (H : HashAlgs) (root : String) :
    List FSTree → List FileInfo
  | [] => []
  | t :: ts => walkEntry s H root t ++ walkEntries s H root ts

end

/-- Result of `scan_directory`: the records and whether the `logging.error`
for a missing root was emitted (the `PathNotFound` signal, which is the only
way the caller-visible behaviour of a missing root differs from a
legitimately empty scan). -/
structure ScanResult where
  files : List FileInfo
  path_not_found : Bool
deriving DecidableEq, Repr

/-- `GuardianScanner.scan_directory` (lines 327–381): a missing root yields
an empty result plus the `PathNotFound` log signal; otherwise the pruned
walk.  The root directory itself is never tested against the exclusion
rules — only entries below it are — exactly as with `os.walk` pruning. -/
def scan_directory (s : GuardianScanner) (H : HashAlgs) (fs : FileSystem)
    (directory : String) : ScanResult :=
  if fs.rootExists then
    { files := walkEntries s H directory fs.entries,
      path_not_found := false }
  else
    { files := [], path_not_found := true }

/-! ## `_parse_size` and the Python numeric parsers -/

/-- Value of a digit string in base 10. -/
def digitsToNat (ds : List Char) : Nat :=
  ds.foldl (fun n c => 10 * n + (c.toNat - 48)) 0

/-- One run of decimal digits in Python's numeric-literal grammar: a single
underscore is permitted between two digits and nowhere else.  The first
component is the digits collected (separators removed), the second the
unconsumed remainder; `acc` holds the digits read so far, reversed.
Non-ASCII Unicode digit characters, accepted by Python, are not modelled. -/
def digitRunCont : List Char → List Char → List Char × List Char
  | '_' :: d :: rest2, acc =>
    if acc ≠ [] ∧ d.isDigit then digitRunCont rest2 (d :: acc)
    else (acc.reverse, '_' :: d :: rest2)
  | c :: rest, acc =>
    if c.isDigit then digitRunCont rest (c :: acc)
    else (acc.reverse, c :: rest)
  | [], acc => (acc.reverse, [])

/-- A Python float as `_parse_size` observes it: a finite value kept as the
exact decimal `mantissa / 10 ^ scale`, a signed infinity, or NaN.  Finite
values are exact rather than rounded to 53-bit binary doubles; the overflow
cutoff to infinity is modelled exactly. -/
inductive PyFloatVal where
  | finite (mantissa : Int) (scale : Nat)
  | inf (negative : Bool)
  | nan
deriving DecidableEq, Repr

/-- The magnitude at which a real value rounds to infinity as an IEEE
double: halfway between `DBL_MAX = 2 ^ 1024 - 2 ^ 971` and `2 ^ 1024`,
since round-to-nearest-even sends the midpoint up. -/
def floatOverflowThreshold : Nat := 2 ^ 1024 - 2 ^ 970

/-- Whether the decimal value `(m / 10 ^ k) × 10 ^ e` overflows to `inf`
when converted to a double. -/
def overflowsToInf (m k : Nat) (e : Int) : Bool :=
  floatOverflowThreshold * 10 ^ (k + (-e).toNat) ≤ m * 10 ^ e.toNat

/-- The value of the parsed literal `± (m / 10 ^ k) × 10 ^ e`, overflowing
to infinity exactly where `float()` does. -/
def mkPyFinite (neg : Bool) (m k : Nat) (e : Int) : PyFloatVal :=
  if overflowsToInf m k e then .inf neg
  else if 0 ≤ e then
    .finite ((if neg then -(m : Int) else (m : Int)) * 10 ^ e.toNat) k
  else
    .finite (if neg then -(m : Int) else (m : Int)) (k + (-e).toNat)

/-- Optional exponent part of a float literal — `[eE][+-]?digits`, with
underscores in the digits — applied to the mantissa `± m / 10 ^ k` already
read; any unconsumed character makes the whole literal invalid. -/
def pyFloatExp (neg : Bool) (m k : Nat) : List Char → Option PyFloatVal
  | [] => some (mkPyFinite neg m k 0)
  | c :: rest =>
    if c = 'e' ∨ c = 'E' then
      let se : Bool × List Char :=
        match rest with
        | '+' :: r => (false, r)
        | '-' :: r => (true, r)
        | _ => (false, rest)
      let dr := digitRunCont se.2 []
      if dr.1.isEmpty ∨ ¬ dr.2.isEmpty then none
      else
        some (mkPyFinite neg m k
          (if se.1 then -(digitsToNat dr.1 : Int) else (digitsToNat dr.1 : Int)))
    else none

/-- A finite float literal: integer digits, optional `.` with fractional
digits (at least one digit in total), optional exponent. -/
def pyFloatFinite (neg : Bool) (cs : List Char) : Option PyFloatVal :=
  let ir := digitRunCont cs []
  match ir.2 with
  | '.' :: rest2 =>
    let fr := digitRunCont rest2 []
    if ir.1.isEmpty ∧ fr.1.isEmpty then none
    else
      pyFloatExp neg
        (digitsToNat ir.1 * 10 ^ fr.1.length + digitsToNat fr.1)
        fr.1.length fr.2
  | _ =>
    if ir.1.isEmpty then none
    else pyFloatExp neg (digitsToNat ir.1) 0 ir.2

/-- Python `float(s)`: surrounding whitespace stripped, an optional sign,
then the case-insensitive words `inf`, `infinity` or `nan`, or a finite
decimal literal with optional fraction, exponent and underscore
separators. -/
def pyFloat (s : String) : Option PyFloatVal :=
  match pyStrip s.toList with
  | [] => none
  | c :: rest =>
    let sc : Bool × List Char :=
      if c = '+' then (false, rest)
      else if c = '-' then (true, rest)
      else (false, c :: rest)
    let up := pyUpper sc.2
    if up = "INF".toList ∨ up = "INFINITY".toList then some (.inf sc.1)
    else if up = "NAN".toList then some .nan
    else pyFloatFinite sc.1 sc.2

/-- Python `int(s)` on a string: whitespace stripped, an optional sign, one
run of digits with underscore separators and nothing after it. -/
def pyIntOfString (s : String) : Option Int :=
  match pyStrip s.toList with
  | [] => none
  | c :: rest =>
    let sc : Bool × List Char :=
      if c = '+' then (false, rest)
      else if c = '-' then (true, rest)
      else (false, c :: rest)
    let dr := digitRunCont sc.2 []
    if dr.1.isEmpty ∨ ¬ dr.2.isEmpty then none
    else some (if sc.1 then -(digitsToNat dr.1 : Int) else (digitsToNat dr.1 : Int))

/-- Python `int()` applied to the exact finite value `mantissa / 10 ^ scale`
of `float(number) * multiplier`: truncation toward zero. -/
def truncScaled (mantissa : Int) (scale : Nat) : Int :=
  if 0 ≤ mantissa then (mantissa.toNat / 10 ^ scale : Nat)
  else -(((-mantissa).toNat / 10 ^ scale : Nat) : Int)

/-- The suffix table of `_parse_size`, longest first (line 275). -/
def sizeMultipliers : List (String × Nat) :=
  [("GB", 1024 ^ 3), ("MB", 1024 ^ 2), ("KB", 1024), ("B", 1)]

/-- `float(number) * multiplier`: an infinite operand stays infinite, NaN
stays NaN, and a finite product whose magnitude leaves the double range
overflows to infinity; a finite result is kept exact. -/
def floatMulInt : PyFloatVal → Nat → PyFloatVal
  | .finite mantissa scale, mult =>
    if overflowsToInf (mantissa.natAbs * mult) scale 0 then
      .inf (decide (mantissa < 0))
    else .finite (mantissa * mult) scale
  | .inf negative, _ => .inf negative
  | .nan, _ => .nan

/-- Outcome of a `_parse_size` call: a byte count, or an exception escaping
the function.  `int()` of an infinite float raises `OverflowError`, which
the `except ValueError` handlers at lines 282 and 288 do not catch; `int()`
of NaN and every malformed literal raise `ValueError`, which they do. -/
inductive ParseSizeResult where
  | ok (bytes : Int)
  | overflowError
deriving DecidableEq, Repr

/-- `GuardianScanner._parse_size` (lines 271–289): upper-case and strip, try
the suffixes longest first — converting the numeric prefix with `float()`,
multiplying, truncating with `int()` — then a bare `int()` byte count.  A
`ValueError` anywhere falls back to the 100 MB default, but `int()` of an
infinite value (`"inf"`, or an exponent past the double range) raises an
uncaught `OverflowError`. -/
def parse_size (size_str : String) : ParseSizeResult :=
  let s := pyStrip (pyUpper size_str.toList)
  match sizeMultipliers.find? (fun sm => sm.1.toList.isSuffixOf s) with
  | some sm =>
    let number : List Char := s.take (s.length - sm.1.length)
    match pyFloat (String.mk number) with
    | some v =>
      match floatMulInt v sm.2 with
      | .finite mantissa scale => .ok (truncScaled mantissa scale)
      | .inf _ => .overflowError
      | .nan => .ok (100 * 1024 * 1024)
    | none => .ok (100 * 1024 * 1024)
  | none =>
    match pyIntOfString (String.mk s) with
    | some n => .ok n
    | none => .ok (100 * 1024 * 1024)

/-! ## The baseline store (`GuardianDatabase`) -/

/-- One row of the `baselines` table. -/
structure BaselineRow where
  id : Nat
  name : String
  path : String
  created_at : Nat
  file_count : Nat
  total_size : Nat
deriving DecidableEq, Repr

/-- One row of the `files` table. -/
structure FileRow where
  baseline_id : Nat
  file_path : String
  file_size : Nat
  modified_time : Rat
  hash_sha256 : String
  hash_sha1 : String
  hash_md5 : String
  permissions : String
  inode : Option Nat
deriving DecidableEq, Repr

/-- One row of the append-only `change_history` table. -/
structure ChangeRow where
  baseline_id : Nat
  change_type : ChangeType
  file_path : String
  old_hash : Option String
  new_hash : Option String
  old_size : Option Nat
  new_size : Option Nat
deriving DecidableEq, Repr

/-- The SQLite database state: the three tables plus the AUTOINCREMENT
counter for `baselines.id`; `created_at` values come from the database clock
(`CURRENT_TIMESTAMP`), passed in explicitly as `now`. -/
structure GuardianDatabase where
  baselines : List BaselineRow
  files : List FileRow
  change_history : List ChangeRow
  next_baseline_id : Nat
deriving DecidableEq, Repr

/-- `GuardianDatabase.create_baseline` (lines 176–203): insert the baseline
row (id from AUTOINCREMENT, aggregates computed once) and one file row per
`FileInfo`; returns `lastrowid`. -/
def db_create_baseline (db : GuardianDatabase) (name path : String)
    (files : List FileInfo) (now : Nat) : Nat × GuardianDatabase :=
  let baseline_id := db.next_baseline_id
  let row : BaselineRow :=
    { id := baseline_id, name := name, path := path, created_at := now,
      file_count := files.length, total_size := (files.map (·.size)).sum }
  let fileRows : List FileRow := files.map fun fi =>
    { baseline_id := baseline_id, file_path := fi.path,
      file_size := fi.size, modified_time := fi.modified_time,
      hash_sha256 := fi.hash_sha256, hash_sha1 := fi.hash_sha1,
      hash_md5 := fi.hash_md5, permissions := fi.permissions,
      inode := fi.inode }
  (baseline_id,
    { db with baselines := db.baselines ++ [row],
              files := db.files ++ fileRows,
              next_baseline_id := baseline_id + 1 })

/-- Rebuild a `FileInfo` from a stored row (`get_baseline_files` loop
body). -/
def fileInfoOfRow (r : FileRow) : FileInfo :=
  { path := r.file_path, size := r.file_size,
    modified_time := r.modified_time, hash_sha256 := r.hash_sha256,
    hash_sha1 := r.hash_sha1, hash_md5 := r.hash_md5,
    permissions := r.permissions, inode := r.inode }

/-- `GuardianDatabase.get_baseline_files` (lines 205–229): the rows of one
baseline, rebuilt into a dict keyed by `file_path` in row order. -/
def get_baseline_files (db : GuardianDatabase) (baseline_id : Nat) :
    List (String × FileInfo) :=
  (db.files.filter (fun r => r.baseline_id = baseline_id)).foldl
    (fun m r => dictInsert m r.file_path (fileInfoOfRow r)) []

/-- `SELECT … ORDER BY created_at DESC LIMIT 1`: the row with the greatest
`created_at` (this fold keeps the earliest-inserted among equal timestamps;
SQL leaves the tie unspecified, and the claims below are settled under
pairwise-distinct timestamps where the tie never arises). -/
def maxByCreatedAtStep (acc : Option BaselineRow) (r : BaselineRow) :
    Option BaselineRow :=
  match acc with
  | none => some r
  | some m => if m.created_at < r.created_at then some r else some m

def maxByCreatedAt (rows : List BaselineRow) : Option BaselineRow :=
  rows.foldl maxByCreatedAtStep none

/-- `GuardianDatabase.get_latest_baseline` (lines 231–240): the id of the
newest baseline whose `path` column equals the argument exactly. -/
def get_latest_baseline (db : GuardianDatabase) (path : String) :
    Option Nat :=
  (maxByCreatedAt (db.baselines.filter (fun r => r.path = path))).map (·.id)

/-- `GuardianDatabase.record_changes` (lines 242–255): append-only insert
into `change_history`. -/
def record_changes (db : GuardianDatabase) (baseline_id : Nat)
    (changes : List ChangeReport) : GuardianDatabase :=
  { db with
      change_history := db.change_history ++ changes.map fun ch =>
        { baseline_id := baseline_id, change_type := ch.change_type,
          file_path := ch.file_path, old_hash := ch.old_hash,
          new_hash := ch.new_hash, old_size := ch.old_size,
          new_size := ch.new_size } }

/-! ## The two pipeline operations of `Guardian` -/

/-- `Guardian.create_baseline` (lines 527–545): scan, return `None` when no
files were found (which also covers a missing path), otherwise persist a new
baseline and return its id. -/
def guardian_create_baseline (s : GuardianScanner) (H : HashAlgs)
    (db : GuardianDatabase) (fs : FileSystem) (path name : String)
    (now : Nat) : Option Nat × GuardianDatabase :=
  let files := (scan_directory s H fs path).files
  if files.isEmpty then (none, db)
  else
    let res := db_create_baseline db name path files now
    (some res.1, res.2)

/-- `Guardian.check_integrity` (lines 547–605): resolve the latest baseline
for the path (empty result if there is none), rescan, run the three-way
diff, and write the change history only when at least one change was
detected. -/
def guardian_check_integrity (s : GuardianScanner) (H : HashAlgs)
    (db : GuardianDatabase) (fs : FileSystem) (path : String) :
    List ChangeReport × GuardianDatabase :=
  match get_latest_baseline db path with
  | none => ([], db)
  | some baseline_id =>
    let baseline_files := get_baseline_files db baseline_id
    let current_files := (scan_directory s H fs path).files
    let current_file_dict := dictOfFiles current_files
    let changes := check_integrity_diff baseline_files current_file_dict
    if changes.isEmpty then (changes, db)
    else (changes, record_changes db baseline_id changes)

/-! ### Concrete demonstration values (used by the witnesses) -/

def scannerDemo : GuardianScanner :=
  { exclude_patterns := ["*.tmp", ".DS_Store"], exclude_paths := ["/proc"],
    max_file_size := 100 }

def hashDemo : HashAlgs :=
  { sha256 := fun data => "sha256/" ++ toString data.length,
    sha1 := fun data => "sha1/" ++ toString data.length,
    md5 := fun data => "md5/" ++ toString data.length }

def statDemo (sz : Nat) : FileStat :=
  { st_size := sz, st_mtime := 0, permissions := "644", st_ino := 7 }

def fileTreeDemo (n : String) (sz : Nat) : FSTree :=
  .file { name := n, stat := some (statDemo sz), content := some [1, 2, 3] }

def fsDemo : FileSystem :=
  { rootExists := true,
    entries := [fileTreeDemo "a.txt" 5, fileTreeDemo "b.tmp" 5,
      fileTreeDemo "big" 101, fileTreeDemo "edge" 100,
      .dir "sub" [fileTreeDemo "c" 1],
      .dir "skip.tmp" [fileTreeDemo "d" 1]] }

def fsMissing : FileSystem := { rootExists := false, entries := [] }

def dbEmpty : GuardianDatabase :=
  { baselines := [], files := [], change_history := [],
    next_baseline_id := 1 }

def fiA : FileInfo :=
  { path := "/r/a.txt", size := 5, modified_time := 0,
    hash_sha256 := "sha256/3", hash_sha1 := "sha1/3", hash_md5 := "md5/3",
    permissions := "644", inode := some 7 }

def rowOld : BaselineRow :=
  { id := 1, name := "first", path := "/p", created_at := 10,
    file_count := 1, total_size := 5 }

def rowNew : BaselineRow :=
  { id := 2, name := "second", path := "/p", created_at := 20,
    file_count := 1, total_size := 5 }

def dbTwo : GuardianDatabase :=
  { baselines := [rowOld, rowNew], files := [], change_history := [],
    next_baseline_id := 3 }

def fiEmptyDemo : FileInfo :=
  { path := "/e", size := 1, modified_time := 0, hash_sha256 := "",
    hash_sha1 := "", hash_md5 := "", permissions := "644",
    inode := some 1 }

/-! ## Lemmas about the diff engine -/

theorem lookupPath_eq_none {m : List (String × FileInfo)} {p : String} :
    lookupPath m p = none ↔ p ∉ mapKeys m := by
  induction m with
  | nil => simp [lookupPath, mapKeys]
  | cons kv m ih =>
    simp only [lookupPath, mapKeys, List.map_cons, List.mem_cons, not_or]
    by_cases h : kv.1 = p
    · simp [h]
    · simp only [if_neg h]
      rw [ih]
      constructor
      · intro h1
        exact ⟨fun e => h e.symm, h1⟩
      · intro h1
        exact h1.2

theorem lookupPath_isSome {m : List (String × FileInfo)} {p : String} :
    (lookupPath m p).isSome = true ↔ p ∈ mapKeys m := by
  cases h : lookupPath m p with
  | none => simpa using lookupPath_eq_none.mp h
  | some fi =>
    simp only [Option.isSome_some, true_iff]
    by_contra hmem
    rw [← lookupPath_eq_none] at hmem
    rw [h] at hmem
    exact Option.noConfusion hmem

theorem recordsFor_cons (r : ChangeReport) (l : List ChangeReport)
    (p : String) :
    recordsFor (r :: l) p =
      if r.file_path = p then r :: recordsFor l p else recordsFor l p := by
  simp only [recordsFor, List.filter_cons]
  by_cases h : r.file_path = p <;> simp [h]

theorem recordsFor_append (x y : List ChangeReport) (p : String) :
    recordsFor (x ++ y) p = recordsFor x p ++ recordsFor y p := by
  simp [recordsFor, List.filter_append]

/-- Every record `mrcStep` produces carries the entry's path. -/
theorem mrcStep_path {c : List (String × FileInfo)} {kv : String × FileInfo}
    {r : ChangeReport} (h : mrcStep c kv = some r) : r.file_path = kv.1 := by
  cases hlc : lookupPath c kv.1 with
  | none =>
    simp only [mrcStep, hlc] at h
    cases h
    rfl
  | some cf =>
    simp only [mrcStep, hlc] at h
    by_cases hsha : kv.2.hash_sha256 = cf.hash_sha256
    · simp [hsha] at h
    · rw [if_pos hsha] at h
      cases h
      rfl

/-- Every record `addedStep` produces carries the entry's path. -/
theorem addedStep_path {b : List (String × FileInfo)} {kv : String × FileInfo}
    {r : ChangeReport} (h : addedStep b kv = some r) : r.file_path = kv.1 := by
  unfold addedStep at h
  by_cases hs : (lookupPath b kv.1).isSome
  · rw [if_pos hs] at h
    exact Option.noConfusion h
  · rw [if_neg hs] at h
    cases h
    rfl

/-- A path outside the baseline keys gets no record from the first loop. -/
theorem recordsFor_mrc_of_not_mem {b : List (String × FileInfo)}
    (c : List (String × FileInfo)) {p : String} (h : p ∉ mapKeys b) :
    recordsFor (modifiedRemovedChanges b c) p = [] := by
  induction b with
  | nil => simp [modifiedRemovedChanges, recordsFor]
  | cons kv b ih =>
    simp only [mapKeys, List.map_cons, List.mem_cons, not_or] at h
    obtain ⟨h1, h2⟩ := h
    rw [modifiedRemovedChanges]
    cases hstep : mrcStep c kv with
    | none =>
      rw [List.filterMap_cons_none hstep]
      exact ih h2
    | some r =>
      rw [List.filterMap_cons_some hstep]
      rw [show List.filterMap (mrcStep c) b = modifiedRemovedChanges b c
        from rfl]
      rw [recordsFor_cons, if_neg (by rw [mrcStep_path hstep]; exact fun e => h1 e.symm)]
      exact ih h2

/-- A path outside the current keys gets no record from the second loop. -/
theorem recordsFor_ac_of_not_mem (b : List (String × FileInfo))
    {c : List (String × FileInfo)} {p : String} (h : p ∉ mapKeys c) :
    recordsFor (addedChanges b c) p = [] := by
  induction c with
  | nil => simp [addedChanges, recordsFor]
  | cons kv c ih =>
    simp only [mapKeys, List.map_cons, List.mem_cons, not_or] at h
    obtain ⟨h1, h2⟩ := h
    rw [addedChanges]
    cases hstep : addedStep b kv with
    | none =>
      rw [List.filterMap_cons_none hstep]
      exact ih h2
    | some r =>
      rw [List.filterMap_cons_some hstep]
      rw [show List.filterMap (addedStep b) c = addedChanges b c from rfl]
      rw [recordsFor_cons, if_neg (by rw [addedStep_path hstep]; exact fun e => h1 e.symm)]
      exact ih h2

/-- Exact records of the first loop for a path present in the baseline
(baseline keys distinct): one REMOVED record if the path is gone, one
MODIFIED record if the SHA-256 digests differ, nothing if they agree. -/
theorem recordsFor_mrc_eq {b : List (String × FileInfo)}
    (c : List (String × FileInfo)) {p : String} {fb : FileInfo}
    (hb : (mapKeys b).Nodup) (hfb : lookupPath b p = some fb) :
    recordsFor (modifiedRemovedChanges b c) p =
      match lookupPath c p with
      | none => [{ change_type := .REMOVED, file_path := p,
                   old_hash := some fb.hash_sha256 }]
      | some fc =>
        if fb.hash_sha256 = fc.hash_sha256 then []
        else [{ change_type := .MODIFIED, file_path := p,
                old_hash := some fb.hash_sha256,
                new_hash := some fc.hash_sha256,
                old_size := some fb.size,
                new_size := some fc.size }] := by
  induction b with
  | nil => exact Option.noConfusion hfb
  | cons kv b ih =>
    simp only [mapKeys, List.map_cons, List.nodup_cons] at hb
    obtain ⟨hk, hb'⟩ := hb
    rw [modifiedRemovedChanges]
    by_cases hp : kv.1 = p
    · subst hp
      rw [lookupPath, if_pos rfl] at hfb
      cases hfb
      have hrest : recordsFor (modifiedRemovedChanges b c) kv.1 =
          [] := recordsFor_mrc_of_not_mem c hk
      cases hlc : lookupPath c kv.1 with
      | none =>
        have hstep : mrcStep c kv = some
            { change_type := .REMOVED, file_path := kv.1,
              old_hash := some kv.2.hash_sha256 } := by
          simp [mrcStep, hlc]
        rw [List.filterMap_cons_some hstep]
        rw [show List.filterMap (mrcStep c) b = modifiedRemovedChanges b c
          from rfl]
        rw [recordsFor_cons]
        simp [hrest]
      | some fc =>
        by_cases hsha : kv.2.hash_sha256 = fc.hash_sha256
        · have hstep : mrcStep c kv = none := by
            simp [mrcStep, hlc, hsha]
          rw [List.filterMap_cons_none hstep]
          rw [show List.filterMap (mrcStep c) b = modifiedRemovedChanges b c
            from rfl]
          simp [hrest, hsha]
        · have hstep : mrcStep c kv = some
              { change_type := .MODIFIED, file_path := kv.1,
                old_hash := some kv.2.hash_sha256,
                new_hash := some fc.hash_sha256,
                old_size := some kv.2.size,
                new_size := some fc.size } := by
            simp [mrcStep, hlc, hsha]
          rw [List.filterMap_cons_some hstep]
          rw [show List.filterMap (mrcStep c) b = modifiedRemovedChanges b c
            from rfl]
          rw [recordsFor_cons]
          simp [hrest, hsha]
    · rw [lookupPath, if_neg hp] at hfb
      have htail := ih hb' hfb
      cases hstep : mrcStep c kv with
      | none =>
        rw [List.filterMap_cons_none hstep]
        exact htail
      | some r =>
        rw [List.filterMap_cons_some hstep]
        rw [show List.filterMap (mrcStep c) b = modifiedRemovedChanges b c
          from rfl]
        rw [recordsFor_cons, if_neg (by rw [mrcStep_path hstep]; exact hp)]
        exact htail

/-- Exact records of the second loop for a path present in the current scan
(current keys distinct): one ADDED record if the path is not in the baseline,
nothing otherwise. -/
theorem recordsFor_ac_eq (b : List (String × FileInfo))
    {c : List (String × FileInfo)} {p : String} {fc : FileInfo}
    (hc : (mapKeys c).Nodup) (hfc : lookupPath c p = some fc) :
    recordsFor (addedChanges b c) p =
      if (lookupPath b p).isSome then []
      else [{ change_type := .ADDED, file_path := p,
              new_hash := some fc.hash_sha256,
              new_size := some fc.size }] := by
  induction c with
  | nil => exact Option.noConfusion hfc
  | cons kv c ih =>
    simp only [mapKeys, List.map_cons, List.nodup_cons] at hc
    obtain ⟨hk, hc'⟩ := hc
    rw [addedChanges]
    by_cases hp : kv.1 = p
    · subst hp
      rw [lookupPath, if_pos rfl] at hfc
      cases hfc
      have hrest : recordsFor (addedChanges b c) kv.1 =
          [] := recordsFor_ac_of_not_mem b hk
      by_cases hs : (lookupPath b kv.1).isSome
      · have hstep : addedStep b kv = none := by
          simp [addedStep, hs]
        rw [List.filterMap_cons_none hstep]
        rw [show List.filterMap (addedStep b) c = addedChanges b c from rfl]
        simp [hrest, hs]
      · have hstep : addedStep b kv = some
            { change_type := .ADDED, file_path := kv.1,
              new_hash := some kv.2.hash_sha256,
              new_size := some kv.2.size } := by
          simp [addedStep, hs]
        rw [List.filterMap_cons_some hstep]
        rw [show List.filterMap (addedStep b) c = addedChanges b c from rfl]
        rw [recordsFor_cons]
        simp [hrest, hs]
    · rw [lookupPath, if_neg hp] at hfc
      have htail := ih hc' hfc
      cases hstep : addedStep b kv with
      | none =>
        rw [List.filterMap_cons_none hstep]
        exact htail
      | some r =>
        rw [List.filterMap_cons_some hstep]
        rw [show List.filterMap (addedStep b) c = addedChanges b c from rfl]
        rw [recordsFor_cons, if_neg (by rw [addedStep_path hstep]; exact hp)]
        exact htail

/-! ## Counting lemmas for the classification partition -/

/-- The predicate under which a baseline entry produces no record: its path is
also current and the SHA-256 digests agree. -/
def unchangedEntry (current : List (String × FileInfo))
    (kv : String × FileInfo) : Bool :=
  match lookupPath current kv.1 with
  | some cf => kv.2.hash_sha256 = cf.hash_sha256
  | none => false

theorem unchangedCount_eq (b c : List (String × FileInfo)) :
    unchangedCount b c = (b.filter (unchangedEntry c)).length := by
  rw [unchangedCount]
  congr 1

theorem mrcStep_eq_none_iff {c : List (String × FileInfo)}
    {kv : String × FileInfo} :
    mrcStep c kv = none ↔ unchangedEntry c kv = true := by
  cases hlc : lookupPath c kv.1 with
  | none => simp [mrcStep, unchangedEntry, hlc]
  | some cf =>
    by_cases hsha : kv.2.hash_sha256 = cf.hash_sha256 <;>
      simp [mrcStep, unchangedEntry, hlc, hsha]

theorem addedStep_eq_none_iff {b : List (String × FileInfo)}
    {kv : String × FileInfo} :
    addedStep b kv = none ↔ (lookupPath b kv.1).isSome = true := by
  by_cases hs : (lookupPath b kv.1).isSome <;> simp [addedStep, hs]

/-- Type of a record from the first loop: MODIFIED or REMOVED. -/
theorem mrcStep_type {c : List (String × FileInfo)} {kv : String × FileInfo}
    {r : ChangeReport} (h : mrcStep c kv = some r) :
    r.change_type = .MODIFIED ∨ r.change_type = .REMOVED := by
  cases hlc : lookupPath c kv.1 with
  | none =>
    simp only [mrcStep, hlc] at h
    cases h
    exact Or.inr rfl
  | some cf =>
    simp only [mrcStep, hlc] at h
    by_cases hsha : kv.2.hash_sha256 = cf.hash_sha256
    · simp [hsha] at h
    · rw [if_pos hsha] at h
      cases h
      exact Or.inl rfl

/-- Type of a record from the second loop: ADDED. -/
theorem addedStep_type {b : List (String × FileInfo)}
    {kv : String × FileInfo} {r : ChangeReport}
    (h : addedStep b kv = some r) : r.change_type = .ADDED := by
  unfold addedStep at h
  by_cases hs : (lookupPath b kv.1).isSome
  · rw [if_pos hs] at h
    exact Option.noConfusion h
  · rw [if_neg hs] at h
    cases h
    rfl

theorem countType_append (x y : List ChangeReport) (ct : ChangeType) :
    countType (x ++ y) ct = countType x ct + countType y ct := by
  simp [countType, List.filter_append]

theorem countType_eq_length {l : List ChangeReport} {ct : ChangeType}
    (h : ∀ r ∈ l, r.change_type = ct) : countType l ct = l.length := by
  induction l with
  | nil => rfl
  | cons r l ih =>
    have hr := h r (List.mem_cons_self r l)
    simp only [countType, List.filter_cons, hr]
    simp only [countType] at ih
    simp [ih fun r' hr' => h r' (List.mem_cons_of_mem _ hr')]

theorem countType_eq_zero {l : List ChangeReport} {ct : ChangeType}
    (h : ∀ r ∈ l, r.change_type ≠ ct) : countType l ct = 0 := by
  induction l with
  | nil => rfl
  | cons r l ih =>
    have hr := h r (List.mem_cons_self r l)
    simp only [countType, List.filter_cons, hr]
    simp only [countType] at ih
    simp [hr, ih fun r' hr' => h r' (List.mem_cons_of_mem _ hr')]

theorem countType_mod_add_rem {l : List ChangeReport}
    (h : ∀ r ∈ l, r.change_type = .MODIFIED ∨ r.change_type = .REMOVED) :
    countType l .MODIFIED + countType l .REMOVED = l.length := by
  induction l with
  | nil => rfl
  | cons r l ih =>
    have ih' := ih fun r' hr' => h r' (List.mem_cons_of_mem _ hr')
    rcases h r (List.mem_cons_self r l) with hr | hr <;>
      simp only [countType, List.filter_cons, hr] <;>
      simp only [countType] at ih' <;>
      simp [hr] <;> omega

theorem mem_mrc_type {b c : List (String × FileInfo)} {r : ChangeReport}
    (h : r ∈ modifiedRemovedChanges b c) :
    r.change_type = .MODIFIED ∨ r.change_type = .REMOVED := by
  rw [modifiedRemovedChanges, List.mem_filterMap] at h
  obtain ⟨kv, _, hstep⟩ := h
  exact mrcStep_type hstep

theorem mem_ac_type {b c : List (String × FileInfo)} {r : ChangeReport}
    (h : r ∈ addedChanges b c) : r.change_type = .ADDED := by
  rw [addedChanges, List.mem_filterMap] at h
  obtain ⟨kv, _, hstep⟩ := h
  exact addedStep_type hstep

/-- Each baseline entry yields exactly one first-loop record or one unchanged
entry, never both. -/
theorem mrc_length_add_unchanged (b c : List (String × FileInfo)) :
    (modifiedRemovedChanges b c).length + unchangedCount b c = b.length := by
  rw [unchangedCount_eq]
  induction b with
  | nil => rfl
  | cons kv b ih =>
    rw [modifiedRemovedChanges] at *
    cases hstep : mrcStep c kv with
    | none =>
      have hu : unchangedEntry c kv = true := mrcStep_eq_none_iff.mp hstep
      rw [List.filterMap_cons_none hstep, List.filter_cons, if_pos hu]
      simp only [List.length_cons]
      omega
    | some r =>
      have hu : ¬ unchangedEntry c kv = true := by
        intro hu
        rw [← mrcStep_eq_none_iff] at hu
        rw [hstep] at hu
        exact Option.noConfusion hu
      rw [List.filterMap_cons_some hstep, List.filter_cons, if_neg hu]
      simp only [List.length_cons]
      omega

/-- Each current entry yields exactly one ADDED record or is a baseline key. -/
theorem ac_length (b c : List (String × FileInfo)) :
    (addedChanges b c).length =
      (c.filter (fun kv => ¬ (lookupPath b kv.1).isSome)).length := by
  induction c with
  | nil => rfl
  | cons kv c ih =>
    rw [addedChanges] at *
    cases hstep : addedStep b kv with
    | none =>
      have hs : (lookupPath b kv.1).isSome = true :=
        addedStep_eq_none_iff.mp hstep
      rw [List.filterMap_cons_none hstep, List.filter_cons]
      simp [hs, ih]
    | some r =>
      have hs : ¬ (lookupPath b kv.1).isSome = true := by
        intro hs
        rw [← addedStep_eq_none_iff] at hs
        rw [hstep] at hs
        exact Option.noConfusion hs
      rw [List.filterMap_cons_some hstep, List.filter_cons]
      simp [hs, ih]

/-- Cardinality of the union of the two keyspaces, for distinct keys. -/
theorem union_keys_card (b c : List (String × FileInfo))
    (hb : (mapKeys b).Nodup) (hc : (mapKeys c).Nodup) :
    ((mapKeys b).toFinset ∪ (mapKeys c).toFinset).card =
      b.length + (c.filter (fun kv => ¬ (lookupPath b kv.1).isSome)).length := by
  have hmemb : ∀ x : String, x ∈ mapKeys b ↔ ∃ a ∈ b, a.1 = x := by
    intro x
    simp [mapKeys]
  have hsd : (mapKeys c).toFinset \ (mapKeys b).toFinset =
      ((c.filter (fun kv => ¬ (lookupPath b kv.1).isSome)).map
        Prod.fst).toFinset := by
    ext x
    simp only [Finset.mem_sdiff, List.mem_toFinset, List.mem_map,
      List.mem_filter, decide_eq_true_eq]
    constructor
    · rintro ⟨hxc, hxb⟩
      rw [show mapKeys c = c.map Prod.fst from rfl, List.mem_map] at hxc
      obtain ⟨kv, hkv, hfst⟩ := hxc
      refine ⟨kv, ⟨hkv, ?_⟩, hfst⟩
      intro hsome
      rw [lookupPath_isSome, hfst] at hsome
      exact hxb hsome
    · rintro ⟨kv, ⟨hkv, hlp⟩, hfst⟩
      constructor
      · rw [show mapKeys c = c.map Prod.fst from rfl, List.mem_map]
        exact ⟨kv, hkv, hfst⟩
      · intro hxb
        rw [← hfst, ← lookupPath_isSome] at hxb
        exact hlp hxb
  have hnodup : ((c.filter (fun kv => ¬ (lookupPath b kv.1).isSome)).map
      Prod.fst).Nodup := by
    have hsub : List.Sublist
        ((c.filter (fun kv => ¬ (lookupPath b kv.1).isSome)).map Prod.fst)
        (c.map Prod.fst) :=
      (List.filter_sublist c).map Prod.fst
    exact hc.sublist hsub
  calc ((mapKeys b).toFinset ∪ (mapKeys c).toFinset).card
      = ((mapKeys c).toFinset ∪ (mapKeys b).toFinset).card := by
        rw [Finset.union_comm]
    _ = ((mapKeys c).toFinset \ (mapKeys b).toFinset).card +
          (mapKeys b).toFinset.card := (Finset.card_sdiff_add_card _ _).symm
    _ = b.length +
          (c.filter (fun kv => ¬ (lookupPath b kv.1).isSome)).length := by
        rw [hsd, List.toFinset_card_of_nodup hnodup,
          List.toFinset_card_of_nodup hb]
        simp only [mapKeys, List.length_map]
        omega

/-! ## Claim C1: classification completeness and exclusivity -/

/-- **C1.** For every pair of path-keyed maps (baselineFiles, currentFiles)
with distinct keys, the diff produced by `check_integrity` assigns every path
in the union of the two key sets to exactly one category: a path in both maps
yields no record when the SHA-256 digests agree and exactly one (MODIFIED)
record when they differ; a path only in the baseline yields exactly one
(REMOVED) record; a path only in the current map yields exactly one (ADDED)
record; a path in neither yields none.  Consequently the ADDED, MODIFIED and
REMOVED record counts plus the number of unchanged paths sum to the
cardinality of the union of the two key sets, and no path produces two
records. -/
theorem check_integrity_diff_classification
    (b c : List (String × FileInfo))
    (hb : (mapKeys b).Nodup) (hc : (mapKeys c).Nodup) :
    (∀ p : String,
      (recordsFor (check_integrity_diff b c) p).length =
        match lookupPath b p, lookupPath c p with
        | some fb, some fc =>
            if fb.hash_sha256 = fc.hash_sha256 then 0 else 1
        | some _, none => 1
        | none, some _ => 1
        | none, none => 0) ∧
    countType (check_integrity_diff b c) .ADDED +
      countType (check_integrity_diff b c) .MODIFIED +
      countType (check_integrity_diff b c) .REMOVED +
      unchangedCount b c =
      ((mapKeys b).toFinset ∪ (mapKeys c).toFinset).card := by
  constructor
  · intro p
    rw [check_integrity_diff, recordsFor_append, List.length_append]
    cases hlb : lookupPath b p with
    | none =>
      rw [recordsFor_mrc_of_not_mem c (lookupPath_eq_none.mp hlb)]
      cases hlc : lookupPath c p with
      | none =>
        rw [recordsFor_ac_of_not_mem b (lookupPath_eq_none.mp hlc)]
        rfl
      | some fc =>
        rw [recordsFor_ac_eq b hc hlc, if_neg (by simp [hlb])]
        rfl
    | some fb =>
      rw [recordsFor_mrc_eq c hb hlb]
      cases hlc : lookupPath c p with
      | none =>
        rw [recordsFor_ac_of_not_mem b (lookupPath_eq_none.mp hlc)]
        rfl
      | some fc =>
        rw [recordsFor_ac_eq b hc hlc, if_pos (by simp [hlb])]
        by_cases hsha : fb.hash_sha256 = fc.hash_sha256 <;> simp [hsha]
  · have hA : countType (check_integrity_diff b c) .ADDED =
        (addedChanges b c).length := by
      rw [check_integrity_diff, countType_append,
        countType_eq_zero (l := modifiedRemovedChanges b c)
          (fun r hr => by rcases mem_mrc_type hr with h | h <;> simp [h]),
        countType_eq_length (fun r hr => mem_ac_type hr)]
      omega
    have hMR : countType (check_integrity_diff b c) .MODIFIED +
        countType (check_integrity_diff b c) .REMOVED =
        (modifiedRemovedChanges b c).length := by
      rw [check_integrity_diff, countType_append, countType_append,
        countType_eq_zero (l := addedChanges b c)
          (fun r hr => by simp [mem_ac_type hr]),
        countType_eq_zero (l := addedChanges b c)
          (fun r hr => by simp [mem_ac_type hr])]
      have := countType_mod_add_rem (fun r hr => mem_mrc_type hr)
        (l := modifiedRemovedChanges b c)
      omega
    rw [union_keys_card b c hb hc, ← ac_length]
    have := mrc_length_add_unchanged b c
    omega

/-- Concrete instantiation of C1 on a two-file baseline against a current
scan with one modification, one removal and one addition. -/
theorem check_integrity_diff_classification_witness :
    (recordsFor
      (check_integrity_diff
        [("/a", fiDemo "/a" "h1"), ("/b", fiDemo "/b" "h2")]
        [("/a", fiDemo "/a" "h1x"), ("/c", fiDemo "/c" "h3")]) "/a").length
      = 1 ∧
    countType
      (check_integrity_diff
        [("/a", fiDemo "/a" "h1"), ("/b", fiDemo "/b" "h2")]
        [("/a", fiDemo "/a" "h1x"), ("/c", fiDemo "/c" "h3")]) .ADDED +
    countType
      (check_integrity_diff
        [("/a", fiDemo "/a" "h1"), ("/b", fiDemo "/b" "h2")]
        [("/a", fiDemo "/a" "h1x"), ("/c", fiDemo "/c" "h3")]) .MODIFIED +
    countType
      (check_integrity_diff
        [("/a", fiDemo "/a" "h1"), ("/b", fiDemo "/b" "h2")]
        [("/a", fiDemo "/a" "h1x"), ("/c", fiDemo "/c" "h3")]) .REMOVED +
    unchangedCount
        [("/a", fiDemo "/a" "h1"), ("/b", fiDemo "/b" "h2")]
        [("/a", fiDemo "/a" "h1x"), ("/c", fiDemo "/c" "h3")] = 3 := by
  have h := check_integrity_diff_classification
    [("/a", fiDemo "/a" "h1"), ("/b", fiDemo "/b" "h2")]
    [("/a", fiDemo "/a" "h1x"), ("/c", fiDemo "/c" "h3")]
    (by decide) (by decide)
  constructor
  · rw [h.1 "/a"]
    decide
  · rw [h.2]
    decide

/-! ## Claim C2: SHA-256 is the only classification oracle -/

/-- With distinct keys, a member entry is what lookup finds. -/
theorem lookupPath_of_mem_nodup {m : List (String × FileInfo)}
    {kv : String × FileInfo} (hm : (mapKeys m).Nodup) (hkv : kv ∈ m) :
    lookupPath m kv.1 = some kv.2 := by
  induction m with
  | nil => exact absurd hkv (List.not_mem_nil kv)
  | cons kv' m ih =>
    simp only [mapKeys, List.map_cons, List.nodup_cons] at hm
    obtain ⟨hk, hm'⟩ := hm
    rcases List.mem_cons.mp hkv with h | h
    · subst h
      rw [lookupPath, if_pos rfl]
    · rw [lookupPath]
      by_cases hp : kv'.1 = kv.1
      · exact absurd (hp ▸ List.mem_map_of_mem Prod.fst h) hk
      · rw [if_neg hp]
        exact ih hm' h

/-- Erase the forensic digests (SHA-1, MD5), keeping everything else. -/
def scrubForensic (fi : FileInfo) : FileInfo :=
  { fi with hash_sha1 := "", hash_md5 := "" }

/-- Erase the forensic digests throughout a path-keyed map. -/
def scrubMap (m : List (String × FileInfo)) : List (String × FileInfo) :=
  m.map (fun kv => (kv.1, scrubForensic kv.2))

theorem lookupPath_scrub (m : List (String × FileInfo)) (p : String) :
    lookupPath (scrubMap m) p = (lookupPath m p).map scrubForensic := by
  induction m with
  | nil => rfl
  | cons kv m ih =>
    rw [scrubMap, List.map_cons]
    rw [lookupPath, lookupPath]
    by_cases hp : kv.1 = p
    · simp [hp]
    · simp only [hp, if_neg, ite_false]
      rw [← scrubMap]
      exact ih

theorem mrcStep_scrub (c : List (String × FileInfo))
    (kv : String × FileInfo) :
    mrcStep (scrubMap c) (kv.1, scrubForensic kv.2) = mrcStep c kv := by
  rw [mrcStep, mrcStep, lookupPath_scrub]
  cases hlc : lookupPath c kv.1 with
  | none => rfl
  | some cf =>
    simp only [Option.map_some]
    by_cases hsha : kv.2.hash_sha256 = cf.hash_sha256 <;>
      simp [scrubForensic, hsha]

theorem addedStep_scrub (b : List (String × FileInfo))
    (kv : String × FileInfo) :
    addedStep (scrubMap b) (kv.1, scrubForensic kv.2) = addedStep b kv := by
  rw [addedStep, addedStep, lookupPath_scrub]
  cases hlb : lookupPath b kv.1 with
  | none => rfl
  | some fb => rfl

theorem scrubMap_cons (kv : String × FileInfo) (m : List (String × FileInfo)) :
    scrubMap (kv :: m) = (kv.1, scrubForensic kv.2) :: scrubMap m := rfl

theorem mrc_scrub (b c : List (String × FileInfo)) :
    modifiedRemovedChanges (scrubMap b) (scrubMap c) =
      modifiedRemovedChanges b c := by
  induction b with
  | nil => rfl
  | cons kv b ih =>
    simp only [modifiedRemovedChanges] at ih ⊢
    rw [scrubMap_cons]
    cases hstep : mrcStep c kv with
    | none =>
      rw [List.filterMap_cons_none (by rw [mrcStep_scrub]; exact hstep),
        List.filterMap_cons_none hstep]
      exact ih
    | some r =>
      rw [List.filterMap_cons_some (by rw [mrcStep_scrub]; exact hstep),
        List.filterMap_cons_some hstep, ih]

theorem ac_scrub (b c : List (String × FileInfo)) :
    addedChanges (scrubMap b) (scrubMap c) = addedChanges b c := by
  induction c with
  | nil => rfl
  | cons kv c ih =>
    simp only [addedChanges] at ih ⊢
    rw [scrubMap_cons]
    cases hstep : addedStep b kv with
    | none =>
      rw [List.filterMap_cons_none (by rw [addedStep_scrub]; exact hstep),
        List.filterMap_cons_none hstep]
      exact ih
    | some r =>
      rw [List.filterMap_cons_some (by rw [addedStep_scrub]; exact hstep),
        List.filterMap_cons_some hstep, ih]

/-- Specialisation of `recordsFor_mrc_eq` when the path is gone. -/
theorem recordsFor_mrc_eq_of_current_none {b : List (String × FileInfo)}
    (c : List (String × FileInfo)) {p : String} {fb : FileInfo}
    (hb : (mapKeys b).Nodup) (hfb : lookupPath b p = some fb)
    (hlc : lookupPath c p = none) :
    recordsFor (modifiedRemovedChanges b c) p =
      [{ change_type := .REMOVED, file_path := p,
         old_hash := some fb.hash_sha256 }] := by
  have h := recordsFor_mrc_eq c hb hfb
  rw [hlc] at h
  exact h

/-- Specialisation of `recordsFor_mrc_eq` when the path is still present. -/
theorem recordsFor_mrc_eq_of_current_some {b : List (String × FileInfo)}
    (c : List (String × FileInfo)) {p : String} {fb fc : FileInfo}
    (hb : (mapKeys b).Nodup) (hfb : lookupPath b p = some fb)
    (hfc : lookupPath c p = some fc) :
    recordsFor (modifiedRemovedChanges b c) p =
      if fb.hash_sha256 = fc.hash_sha256 then []
      else [{ change_type := .MODIFIED, file_path := p,
              old_hash := some fb.hash_sha256,
              new_hash := some fc.hash_sha256,
              old_size := some fb.size,
              new_size := some fc.size }] := by
  have h := recordsFor_mrc_eq c hb hfb
  rw [hfc] at h
  exact h

/-- **C2.** For maps with distinct keys: a path present in both maps gets a
MODIFIED record exactly when the two SHA-256 digest strings differ; every
MODIFIED record carries the baseline and current SHA-256 digests and sizes;
every REMOVED record carries the old SHA-256 digest with all new-side fields
null; every ADDED record carries the new SHA-256 digest and size with all
old-side fields null; and the whole diff is unchanged when every SHA-1 and
MD5 digest is erased from both inputs — the forensic digests are never
consulted. -/
theorem check_integrity_diff_sha256_oracle
    (b c : List (String × FileInfo))
    (hb : (mapKeys b).Nodup) (hc : (mapKeys c).Nodup) :
    (∀ p fb fc, lookupPath b p = some fb → lookupPath c p = some fc →
      ((∃ r ∈ check_integrity_diff b c,
          r.file_path = p ∧ r.change_type = .MODIFIED) ↔
        fb.hash_sha256 ≠ fc.hash_sha256)) ∧
    (∀ r ∈ check_integrity_diff b c,
      (r.change_type = .MODIFIED → ∃ fb fc,
        lookupPath b r.file_path = some fb ∧
        lookupPath c r.file_path = some fc ∧
        fb.hash_sha256 ≠ fc.hash_sha256 ∧
        r = { change_type := .MODIFIED, file_path := r.file_path,
              old_hash := some fb.hash_sha256,
              new_hash := some fc.hash_sha256,
              old_size := some fb.size, new_size := some fc.size }) ∧
      (r.change_type = .REMOVED → ∃ fb,
        lookupPath b r.file_path = some fb ∧
        lookupPath c r.file_path = none ∧
        r = { change_type := .REMOVED, file_path := r.file_path,
              old_hash := some fb.hash_sha256, new_hash := none,
              old_size := none, new_size := none }) ∧
      (r.change_type = .ADDED → ∃ fc,
        lookupPath b r.file_path = none ∧
        lookupPath c r.file_path = some fc ∧
        r = { change_type := .ADDED, file_path := r.file_path,
              old_hash := none, new_hash := some fc.hash_sha256,
              old_size := none, new_size := some fc.size })) ∧
    check_integrity_diff (scrubMap b) (scrubMap c) =
      check_integrity_diff b c := by
  refine ⟨?_, ?_, ?_⟩
  · intro p fb fc hfb hfc
    constructor
    · rintro ⟨r, hr, hpath, htype⟩
      by_cases hsha : fb.hash_sha256 = fc.hash_sha256
      · exfalso
        have hmem : r ∈ recordsFor (check_integrity_diff b c) p := by
          rw [recordsFor, List.mem_filter]
          exact ⟨hr, by simp [hpath]⟩
        rw [check_integrity_diff, recordsFor_append] at hmem
        rw [recordsFor_mrc_eq_of_current_some c hb hfb hfc,
          if_pos hsha] at hmem
        rw [recordsFor_ac_eq b hc hfc, if_pos (by simp [hfb])] at hmem
        simp at hmem
      · exact hsha
    · intro hsha
      have hrec := recordsFor_mrc_eq_of_current_some c hb hfb hfc
      rw [if_neg hsha] at hrec
      have hmem : ({ change_type := .MODIFIED, file_path := p,
                     old_hash := some fb.hash_sha256,
                     new_hash := some fc.hash_sha256,
                     old_size := some fb.size,
                     new_size := some fc.size } :
            ChangeReport) ∈ recordsFor (modifiedRemovedChanges b c) p := by
        rw [hrec]
        exact List.mem_singleton.mpr rfl
      rw [recordsFor, List.mem_filter] at hmem
      refine ⟨{ change_type := .MODIFIED, file_path := p,
                old_hash := some fb.hash_sha256,
                new_hash := some fc.hash_sha256,
                old_size := some fb.size,
                new_size := some fc.size }, ?_, rfl, rfl⟩
      rw [check_integrity_diff]
      exact List.mem_append_left _ hmem.1
  · intro r hr
    rw [check_integrity_diff, List.mem_append] at hr
    rcases hr with hr | hr
    · rw [modifiedRemovedChanges, List.mem_filterMap] at hr
      obtain ⟨kv, hkv, hstep⟩ := hr
      have hpath : r.file_path = kv.1 := mrcStep_path hstep
      have hlb : lookupPath b r.file_path = some kv.2 := by
        rw [hpath]
        exact lookupPath_of_mem_nodup hb hkv
      cases hlc : lookupPath c kv.1 with
      | none =>
        simp only [mrcStep, hlc] at hstep
        cases hstep
        refine ⟨fun h => ChangeType.noConfusion h, fun _ => ?_,
          fun h => ChangeType.noConfusion h⟩
        exact ⟨kv.2, hlb, by rw [hpath]; exact hlc, rfl⟩
      | some cf =>
        simp only [mrcStep, hlc] at hstep
        by_cases hsha : kv.2.hash_sha256 = cf.hash_sha256
        · simp [hsha] at hstep
        · rw [if_pos hsha] at hstep
          cases hstep
          refine ⟨fun _ => ?_, fun h => ChangeType.noConfusion h,
            fun h => ChangeType.noConfusion h⟩
          exact ⟨kv.2, cf, hlb, by rw [hpath]; exact hlc, hsha, rfl⟩
    · rw [addedChanges, List.mem_filterMap] at hr
      obtain ⟨kv, hkv, hstep⟩ := hr
      have hpath : r.file_path = kv.1 := addedStep_path hstep
      have hlc : lookupPath c r.file_path = some kv.2 := by
        rw [hpath]
        exact lookupPath_of_mem_nodup hc hkv
      rw [addedStep] at hstep
      by_cases hs : (lookupPath b kv.1).isSome
      · rw [if_pos hs] at hstep
        exact Option.noConfusion hstep
      · rw [if_neg hs] at hstep
        cases hstep
        refine ⟨fun h => ChangeType.noConfusion h,
          fun h => ChangeType.noConfusion h, fun _ => ?_⟩
        refine ⟨kv.2, ?_, hlc, rfl⟩
        rw [hpath]
        exact Option.not_isSome_iff_eq_none.mp hs
  · rw [check_integrity_diff, check_integrity_diff, mrc_scrub, ac_scrub]

/-- Concrete instantiation of C2: the modified path "/a" gets its MODIFIED
record precisely because the SHA-256 digests differ, and erasing every SHA-1
and MD5 digest leaves the diff unchanged. -/
theorem check_integrity_diff_sha256_oracle_witness :
    (∃ r ∈ check_integrity_diff
        [("/a", fiDemo "/a" "h1"), ("/b", fiDemo "/b" "h2")]
        [("/a", fiDemo "/a" "h1x"), ("/c", fiDemo "/c" "h3")],
      r.file_path = "/a" ∧ r.change_type = .MODIFIED) ∧
    check_integrity_diff
        (scrubMap [("/a", fiDemo "/a" "h1"), ("/b", fiDemo "/b" "h2")])
        (scrubMap [("/a", fiDemo "/a" "h1x"), ("/c", fiDemo "/c" "h3")]) =
      check_integrity_diff
        [("/a", fiDemo "/a" "h1"), ("/b", fiDemo "/b" "h2")]
        [("/a", fiDemo "/a" "h1x"), ("/c", fiDemo "/c" "h3")] := by
  have h := check_integrity_diff_sha256_oracle
    [("/a", fiDemo "/a" "h1"), ("/b", fiDemo "/b" "h2")]
    [("/a", fiDemo "/a" "h1x"), ("/c", fiDemo "/c" "h3")]
    (by decide) (by decide)
  constructor
  · exact (h.1 "/a" (fiDemo "/a" "h1") (fiDemo "/a" "h1x") (by decide)
      (by decide)).mpr (by decide)
  · exact h.2.2

/-! ## The scanner claims: exclusion (C5), size gate (C6), fingerprinter (C3), missing root (C8) -/

/-- Every produced record satisfies the non-exclusion and path shape. -/
theorem processFileEntry_not_excluded {s : GuardianScanner} {H : HashAlgs}
    {root : String} {e : FileEntry} {fi : FileInfo}
    (h : processFileEntry s H root e = some fi) :
    should_exclude s fi.path = false := by
  rw [processFileEntry] at h
  split at h
  next hex => exact Option.noConfusion h
  next hex =>
    split at h
    next => exact Option.noConfusion h
    next st hst =>
      split at h
      next => exact Option.noConfusion h
      next hsz =>
        cases h
        simpa using hex

mutual

theorem mem_walkEntry_processed {s : GuardianScanner} {H : HashAlgs} :
    ∀ {root : String} {t : FSTree} {fi : FileInfo},
      fi ∈ walkEntry s H root t →
      ∃ root' e, processFileEntry s H root' e = some fi
  | root, .file e, fi, hfi => by
    rw [walkEntry] at hfi
    cases hp : processFileEntry s H root e with
    | none =>
      rw [hp] at hfi
      exact absurd hfi (List.not_mem_nil fi)
    | some fi' =>
      rw [hp] at hfi
      rcases List.mem_singleton.mp hfi with rfl
      exact ⟨root, e, hp⟩
  | root, .dir n children, fi, hfi => by
    rw [walkEntry] at hfi
    by_cases hex : should_exclude s (joinPath root n)
    · rw [if_pos hex] at hfi
      exact absurd hfi (List.not_mem_nil fi)
    · rw [if_neg hex] at hfi
      exact mem_walkEntries_processed hfi

theorem mem_walkEntries_processed {s : GuardianScanner} {H : HashAlgs} :
    ∀ {root : String} {ts : List FSTree} {fi : FileInfo},
      fi ∈ walkEntries s H root ts →
      ∃ root' e, processFileEntry s H root' e = some fi
  | root, [], fi, hfi => by
    rw [walkEntries] at hfi
    exact absurd hfi (List.not_mem_nil fi)
  | root, t :: ts, fi, hfi => by
    rw [walkEntries] at hfi
    rcases List.mem_append.mp hfi with h | h
    · exact mem_walkEntry_processed h
    · exact mem_walkEntries_processed h

end

theorem mem_scan_processed {s : GuardianScanner} {H : HashAlgs}
    {fs : FileSystem} {directory : String} {fi : FileInfo}
    (h : fi ∈ (scan_directory s H fs directory).files) :
    ∃ root' e, processFileEntry s H root' e = some fi := by
  rw [scan_directory] at h
  by_cases hex : fs.rootExists
  · rw [if_pos hex] at h
    exact mem_walkEntries_processed h
  · rw [if_neg hex] at h
    exact absurd h (List.not_mem_nil fi)

theorem scan_no_excluded (s : GuardianScanner) (H : HashAlgs)
    (fs : FileSystem) (directory : String) :
    (∀ fi ∈ (scan_directory s H fs directory).files,
      should_exclude s fi.path = false) ∧
    (∀ (root n : String) (children : List FSTree),
      should_exclude s (joinPath root n) = true →
      walkEntry s H root (.dir n children) = []) := by
  constructor
  · intro fi hfi
    obtain ⟨root', e, hp⟩ := mem_scan_processed hfi
    exact processFileEntry_not_excluded hp
  · intro root n children hex
    rw [walkEntry, if_pos hex]

theorem processFileEntry_digests {s : GuardianScanner} {H : HashAlgs}
    {root : String} {e : FileEntry} {fi : FileInfo}
    (h : processFileEntry s H root e = some fi) :
    fi.hash_sha256 = (calculate_hashes H e.content).1 ∧
    fi.hash_sha1 = (calculate_hashes H e.content).2.1 ∧
    fi.hash_md5 = (calculate_hashes H e.content).2.2 := by
  rw [processFileEntry] at h
  split at h
  next => exact Option.noConfusion h
  next =>
    split at h
    next => exact Option.noConfusion h
    next st hst =>
      split at h
      next => exact Option.noConfusion h
      next =>
        cases h
        exact ⟨rfl, rfl, rfl⟩

theorem scan_size_gate (s : GuardianScanner) (H : HashAlgs) (root : String)
    (e : FileEntry) (st : FileStat)
    (hstat : e.stat = some st)
    (hexcl : should_exclude s (joinPath root e.name) = false) :
    ((st.st_size : Int) ≤ s.max_file_size →
      walkEntry s H root (.file e) =
        [{ path := joinPath root e.name, size := st.st_size,
           modified_time := st.st_mtime,
           hash_sha256 := (calculate_hashes H e.content).1,
           hash_sha1 := (calculate_hashes H e.content).2.1,
           hash_md5 := (calculate_hashes H e.content).2.2,
           permissions := st.permissions, inode := some st.st_ino }]) ∧
    (s.max_file_size < (st.st_size : Int) →
      walkEntry s H root (.file e) = []) := by
  constructor
  · intro hle
    have hgt : ¬ ((st.st_size : Int) > s.max_file_size) := not_lt.mpr hle
    simp [walkEntry, processFileEntry, hexcl, hstat, hgt]
  · intro hlt
    simp [walkEntry, processFileEntry, hexcl, hstat, hlt]

theorem fingerprinter_digests_all_or_nothing
    (s : GuardianScanner) (H : HashAlgs) (fs : FileSystem)
    (directory : String)
    (hwf : ∀ data : List Nat,
      H.sha256 data ≠ "" ∧ H.sha1 data ≠ "" ∧ H.md5 data ≠ "") :
    (∀ content : Option (List Nat),
      (∃ data, content = some data ∧
        calculate_hashes H content =
          (H.sha256 data, H.sha1 data, H.md5 data)) ∨
      (content = none ∧ calculate_hashes H content = ("", "", ""))) ∧
    (∀ fi ∈ (scan_directory s H fs directory).files,
      (fi.hash_sha256 ≠ "" ∧ fi.hash_sha1 ≠ "" ∧ fi.hash_md5 ≠ "") ∨
      (fi.hash_sha256 = "" ∧ fi.hash_sha1 = "" ∧ fi.hash_md5 = "")) ∧
    (∀ (root : String) (e : FileEntry) (st : FileStat),
      e.stat = some st →
      should_exclude s (joinPath root e.name) = false →
      (st.st_size : Int) ≤ s.max_file_size →
      e.content = none →
      walkEntry s H root (.file e) =
        [{ path := joinPath root e.name, size := st.st_size,
           modified_time := st.st_mtime, hash_sha256 := "",
           hash_sha1 := "", hash_md5 := "",
           permissions := st.permissions, inode := some st.st_ino }]) := by
  refine ⟨?_, ?_, ?_⟩
  · intro content
    cases content with
    | some data => exact Or.inl ⟨data, rfl, rfl⟩
    | none => exact Or.inr ⟨rfl, rfl⟩
  · intro fi hfi
    obtain ⟨root', e, hp⟩ := mem_scan_processed hfi
    obtain ⟨h256, h1, h5⟩ := processFileEntry_digests hp
    cases hc : e.content with
    | some data =>
      rw [hc] at h256 h1 h5
      exact Or.inl ⟨by rw [h256]; exact (hwf data).1,
        by rw [h1]; exact (hwf data).2.1,
        by rw [h5]; exact (hwf data).2.2⟩
    | none =>
      rw [hc] at h256 h1 h5
      exact Or.inr ⟨h256, h1, h5⟩
  · intro root e st hstat hexcl hle hcontent
    have hgt : ¬ ((st.st_size : Int) > s.max_file_size) := not_lt.mpr hle
    simp [walkEntry, processFileEntry, hexcl, hstat, hgt, hcontent,
      calculate_hashes]

theorem scan_missing_root_signal (s : GuardianScanner) (H : HashAlgs)
    (fs : FileSystem) (directory : String) (db : GuardianDatabase)
    (path name : String) (now : Nat) :
    (fs.rootExists = false →
      scan_directory s H fs directory =
        { files := [], path_not_found := true }) ∧
    (fs.rootExists = true →
      (scan_directory s H fs directory).path_not_found = false) ∧
    (fs.rootExists = false →
      (guardian_create_baseline s H db fs path name now).1 = none) ∧
    ((scan_directory s H fs path).files = [] →
      (guardian_create_baseline s H db fs path name now).1 = none) := by
  refine ⟨?_, ?_, ?_, ?_⟩
  · intro h
    simp [scan_directory, h]
  · intro h
    simp [scan_directory, h]
  · intro h
    simp [guardian_create_baseline, scan_directory, h]
  · intro h
    simp [guardian_create_baseline, h]

/-- The demo digest algorithms never return an empty hex string. -/
theorem hashDemo_nonempty : ∀ data : List Nat,
    hashDemo.sha256 data ≠ "" ∧ hashDemo.sha1 data ≠ "" ∧
    hashDemo.md5 data ≠ "" := by
  intro data
  refine ⟨?_, ?_, ?_⟩ <;> intro hc <;>
  · have hlen := congrArg String.length hc
    simp only [hashDemo, String.length_append] at hlen
    have h7 : ("sha256/" : String).length = 7 := rfl
    have h5 : ("sha1/" : String).length = 5 := rfl
    have h4 : ("md5/" : String).length = 4 := rfl
    have h0 : ("" : String).length = 0 := rfl
    omega

/-- Concrete instantiation of C5: the scanned record for `/r/a.txt` is not
excluded, and the excluded directory `skip.tmp` contributes nothing. -/
theorem scan_no_excluded_witness :
    should_exclude scannerDemo fiA.path = false ∧
    walkEntry scannerDemo hashDemo "/r"
      (.dir "skip.tmp" [fileTreeDemo "d" 1]) = [] := by
  have h := scan_no_excluded scannerDemo hashDemo fsDemo "/r"
  constructor
  · exact h.1 fiA (by decide)
  · exact h.2 "/r" "skip.tmp" [fileTreeDemo "d" 1] (by decide)

/-- Concrete instantiation of C6: a 100-byte file at the 100-byte limit is
scanned, a 101-byte file is skipped. -/
theorem scan_size_gate_witness :
    (walkEntry scannerDemo hashDemo "/r" (fileTreeDemo "edge" 100)).length
      = 1 ∧
    walkEntry scannerDemo hashDemo "/r" (fileTreeDemo "big" 101) = [] := by
  have h1 := scan_size_gate scannerDemo hashDemo "/r"
    ⟨"edge", some (statDemo 100), some [1, 2, 3]⟩ (statDemo 100) rfl
    (by decide)
  have h2 := scan_size_gate scannerDemo hashDemo "/r"
    ⟨"big", some (statDemo 101), some [1, 2, 3]⟩ (statDemo 101) rfl
    (by decide)
  constructor
  · rw [show fileTreeDemo "edge" 100 =
      FSTree.file ⟨"edge", some (statDemo 100), some [1, 2, 3]⟩ from rfl]
    rw [h1.1 (by decide)]
    rfl
  · rw [show fileTreeDemo "big" 101 =
      FSTree.file ⟨"big", some (statDemo 101), some [1, 2, 3]⟩ from rfl]
    exact h2.2 (by decide)

/-- Concrete instantiation of C3: a file whose content cannot be read still
produces a record, with all three digests empty. -/
theorem fingerprinter_digests_all_or_nothing_witness :
    walkEntry scannerDemo hashDemo "/r"
      (.file ⟨"bad", some (statDemo 5), none⟩) =
      [{ path := "/r/bad", size := 5, modified_time := 0,
         hash_sha256 := "", hash_sha1 := "", hash_md5 := "",
         permissions := "644", inode := some 7 }] := by
  have h := (fingerprinter_digests_all_or_nothing scannerDemo hashDemo
    fsDemo "/r" hashDemo_nonempty).2.2
    "/r" ⟨"bad", some (statDemo 5), none⟩ (statDemo 5) rfl (by decide)
    (by decide) rfl
  rw [h]
  decide

/-- Concrete instantiation of C8: a missing root produces an empty scan with
the `PathNotFound` signal, and `create_baseline` then returns `None`. -/
theorem scan_missing_root_signal_witness :
    scan_directory scannerDemo hashDemo fsMissing "/gone" =
      { files := [], path_not_found := true } ∧
    (guardian_create_baseline scannerDemo hashDemo dbEmpty fsMissing
      "/gone" "b" 5).1 = none := by
  have h := scan_missing_root_signal scannerDemo hashDemo fsMissing "/gone"
    dbEmpty "/gone" "b" 5
  exact ⟨h.1 rfl, h.2.2.1 rfl⟩


/-! ## Claim C4: latest-baseline resolution -/

theorem maxByCreatedAt_go (rows : List BaselineRow) :
    ∀ a : BaselineRow,
      ∃ m, rows.foldl maxByCreatedAtStep (some a) = some m ∧
        (m = a ∨ m ∈ rows) ∧ a.created_at ≤ m.created_at ∧
        ∀ r ∈ rows, r.created_at ≤ m.created_at := by
  induction rows with
  | nil =>
    intro a
    exact ⟨a, rfl, Or.inl rfl, le_refl _, by simp⟩
  | cons r rows ih =>
    intro a
    rw [List.foldl_cons]
    by_cases hlt : a.created_at < r.created_at
    · have hstep : maxByCreatedAtStep (some a) r = some r := by
        simp [maxByCreatedAtStep, hlt]
      rw [hstep]
      obtain ⟨m, hm, hmem, hle, hall⟩ := ih r
      refine ⟨m, hm, ?_, le_trans (le_of_lt hlt) hle, ?_⟩
      · rcases hmem with h | h
        · exact Or.inr (h ▸ List.mem_cons_self r rows)
        · exact Or.inr (List.mem_cons_of_mem r h)
      · intro r' hr'
        rcases List.mem_cons.mp hr' with h | h
        · exact h ▸ hle
        · exact hall r' h
    · have hstep : maxByCreatedAtStep (some a) r = some a := by
        simp [maxByCreatedAtStep, hlt]
      rw [hstep]
      obtain ⟨m, hm, hmem, hle, hall⟩ := ih a
      refine ⟨m, hm, ?_, hle, ?_⟩
      · rcases hmem with h | h
        · exact Or.inl h
        · exact Or.inr (List.mem_cons_of_mem r h)
      · intro r' hr'
        rcases List.mem_cons.mp hr' with h | h
        · exact h ▸ le_trans (not_lt.mp hlt) hle
        · exact hall r' h

/-- A nonempty row list has a maximum-timestamp row. -/
theorem maxByCreatedAt_spec {rows : List BaselineRow} (hne : rows ≠ []) :
    ∃ m, maxByCreatedAt rows = some m ∧ m ∈ rows ∧
      ∀ r ∈ rows, r.created_at ≤ m.created_at := by
  cases rows with
  | nil => exact absurd rfl hne
  | cons r rows =>
    rw [maxByCreatedAt, List.foldl_cons]
    have hstep : maxByCreatedAtStep none r = some r := rfl
    rw [hstep]
    obtain ⟨m, hm, hmem, hle, hall⟩ := maxByCreatedAt_go rows r
    refine ⟨m, hm, ?_, ?_⟩
    · rcases hmem with h | h
      · exact h ▸ List.mem_cons_self r rows
      · exact List.mem_cons_of_mem r h
    · intro r' hr'
      rcases List.mem_cons.mp hr' with h | h
      · exact h ▸ hle
      · exact hall r' h

/-- Two distinct rows of a strictly-increasing-timestamp list have distinct
timestamps. -/
theorem created_at_ne_of_pairwise {l : List BaselineRow}
    (h : l.Pairwise (fun a b => a.created_at < b.created_at))
    {r m : BaselineRow} (hr : r ∈ l) (hm : m ∈ l) (hne : r ≠ m) :
    r.created_at ≠ m.created_at := by
  have h' : l.Pairwise (fun a b => a.created_at ≠ b.created_at ∧
      b.created_at ≠ a.created_at) :=
    h.imp (fun hlt => ⟨ne_of_lt hlt, (ne_of_lt hlt).symm⟩)
  have hsym : Symmetric (fun a b : BaselineRow =>
      a.created_at ≠ b.created_at ∧ b.created_at ≠ a.created_at) := by
    intro a b hab
    exact ⟨hab.2, hab.1⟩
  exact (List.Pairwise.forall hsym h' hr hm hne).1

/-- **C4.** When baseline creation timestamps are strictly increasing in
creation order and ids are unique (as AUTOINCREMENT guarantees),
`get_latest_baseline` returns `none` exactly when no baseline was ever
created for the exact path string, and otherwise returns the id of the
most-recently-created baseline for that path — never the id of an earlier
one. -/
theorem get_latest_baseline_newest (db : GuardianDatabase) (path : String)
    (hts : db.baselines.Pairwise (fun a b => a.created_at < b.created_at))
    (hid : (db.baselines.map (·.id)).Nodup) :
    ((∀ r ∈ db.baselines, r.path ≠ path) →
      get_latest_baseline db path = none) ∧
    (∀ r0 ∈ db.baselines, r0.path = path →
      ∃ m ∈ db.baselines, m.path = path ∧
        get_latest_baseline db path = some m.id ∧
        (∀ r ∈ db.baselines, r.path = path → r.created_at ≤ m.created_at) ∧
        (∀ r ∈ db.baselines, r.path = path → r ≠ m →
          r.created_at < m.created_at ∧
          get_latest_baseline db path ≠ some r.id)) := by
  constructor
  · intro hnone
    rw [get_latest_baseline]
    have hfil : db.baselines.filter (fun r => r.path = path) = [] := by
      rw [List.filter_eq_nil_iff]
      intro r hr
      simp [hnone r hr]
    rw [hfil]
    rfl
  · intro r0 hr0 hp0
    have hr0f : r0 ∈ db.baselines.filter (fun r => r.path = path) := by
      rw [List.mem_filter]
      exact ⟨hr0, by simp [hp0]⟩
    have hne : db.baselines.filter (fun r => r.path = path) ≠ [] := by
      intro hnil
      rw [hnil] at hr0f
      exact absurd hr0f (List.not_mem_nil r0)
    obtain ⟨m, hm, hmemf, hallf⟩ := maxByCreatedAt_spec hne
    have hmmem : m ∈ db.baselines := (List.mem_filter.mp hmemf).1
    have hmpath : m.path = path := by
      have := (List.mem_filter.mp hmemf).2
      simpa using this
    refine ⟨m, hmmem, hmpath, ?_, ?_, ?_⟩
    · rw [get_latest_baseline, hm]
      rfl
    · intro r hr hrp
      exact hallf r (List.mem_filter.mpr ⟨hr, by simp [hrp]⟩)
    · intro r hr hrp hrne
      have hle : r.created_at ≤ m.created_at :=
        hallf r (List.mem_filter.mpr ⟨hr, by simp [hrp]⟩)
      have hne' : r.created_at ≠ m.created_at :=
        created_at_ne_of_pairwise hts hr hmmem hrne
      refine ⟨lt_of_le_of_ne hle hne', ?_⟩
      rw [get_latest_baseline, hm]
      intro hcontra
      have hideq : m.id = r.id := by
        simpa using hcontra
      have : r = m :=
        List.inj_on_of_nodup_map hid hr hmmem hideq.symm
      exact hrne this




/-- Concrete instantiation of C4: with two baselines for `/p`,
`get_latest_baseline` returns the newer id 2 and never the older id 1. -/
theorem get_latest_baseline_newest_witness :
    get_latest_baseline dbTwo "/p" = some 2 ∧
    get_latest_baseline dbTwo "/p" ≠ some 1 := by
  obtain ⟨m, hmem, hpath, heq, hmax, hstrict⟩ :=
    (get_latest_baseline_newest dbTwo "/p" (by decide) (by decide)).2
      rowOld (by decide) rfl
  have hc : get_latest_baseline dbTwo "/p" = some 2 := by decide
  refine ⟨hc, ?_⟩
  have hm2 : m.id = 2 := by
    rw [heq] at hc
    exact Option.some.inj hc
  have hroneq : rowOld ≠ m := by
    intro he
    rw [← he] at hm2
    exact absurd hm2 (by decide)
  exact (hstrict rowOld (by decide) rfl hroneq).2

/-! ## Claim C10: equal empty digests are unchanged; no write on no changes -/

/-- **C10.** A path stored with an empty SHA-256 digest in both the baseline
and the current scan produces no change record (the two empty strings compare
equal), and a `check_integrity` run that detects zero changes leaves the
database — in particular the change-history store — untouched. -/
theorem check_integrity_empty_digests_and_no_write
    (b c : List (String × FileInfo)) (p : String) (fb fc : FileInfo)
    (hb : (mapKeys b).Nodup) (hc : (mapKeys c).Nodup)
    (hfb : lookupPath b p = some fb) (hfc : lookupPath c p = some fc)
    (h256b : fb.hash_sha256 = "") (h256c : fc.hash_sha256 = "") :
    recordsFor (check_integrity_diff b c) p = [] ∧
    (∀ (s : GuardianScanner) (H : HashAlgs) (db : GuardianDatabase)
      (fs : FileSystem) (path : String),
      (guardian_check_integrity s H db fs path).1 = [] →
      (guardian_check_integrity s H db fs path).2 = db) := by
  constructor
  · rw [check_integrity_diff, recordsFor_append,
      recordsFor_mrc_eq_of_current_some c hb hfb hfc,
      if_pos (h256b.trans h256c.symm),
      recordsFor_ac_eq b hc hfc, if_pos (by simp [hfb])]
    rfl
  · intro s H db fs path hempty
    cases hlb : get_latest_baseline db path with
    | none =>
      show (match get_latest_baseline db path with
        | none => (([] : List ChangeReport), db)
        | some baseline_id =>
          let baseline_files := get_baseline_files db baseline_id
          let current_files := (scan_directory s H fs path).files
          let current_file_dict := dictOfFiles current_files
          let changes := check_integrity_diff baseline_files
            current_file_dict
          if changes.isEmpty then (changes, db)
          else (changes, record_changes db baseline_id changes)).2 = db
      rw [hlb]
    | some baseline_id =>
      have heq : guardian_check_integrity s H db fs path =
          (if (check_integrity_diff (get_baseline_files db baseline_id)
              (dictOfFiles (scan_directory s H fs path).files)).isEmpty
          then (check_integrity_diff (get_baseline_files db baseline_id)
              (dictOfFiles (scan_directory s H fs path).files), db)
          else (check_integrity_diff (get_baseline_files db baseline_id)
              (dictOfFiles (scan_directory s H fs path).files),
            record_changes db baseline_id
              (check_integrity_diff (get_baseline_files db baseline_id)
                (dictOfFiles (scan_directory s H fs path).files)))) := by
        rw [guardian_check_integrity, hlb]
      rw [heq] at hempty ⊢
      by_cases hcz : (check_integrity_diff
          (get_baseline_files db baseline_id)
          (dictOfFiles (scan_directory s H fs path).files)).isEmpty
      · rw [if_pos hcz]
      · rw [if_neg hcz] at hempty
        rw [Bool.not_eq_true, List.isEmpty_eq_false] at hcz
        exact absurd hempty hcz

/-! ## Claim C9: a check right after baseline creation reports no changes -/

theorem mapKeys_dictInsert (m : List (String × FileInfo)) (k : String)
    (v : FileInfo) :
    mapKeys (dictInsert m k v) =
      if k ∈ mapKeys m then mapKeys m else mapKeys m ++ [k] := by
  rw [dictInsert]
  by_cases hmem : m.any (fun kv => kv.1 = k)
  · rw [if_pos hmem]
    have hk : k ∈ mapKeys m := by
      rw [List.any_eq_true] at hmem
      obtain ⟨kv, hkv, he⟩ := hmem
      rw [decide_eq_true_eq] at he
      rw [← he]
      exact List.mem_map_of_mem Prod.fst hkv
    rw [if_pos hk, mapKeys, mapKeys, List.map_map]
    refine List.map_congr_left ?_
    intro kv _
    by_cases hkv : kv.1 = k
    · simp [hkv]
    · simp [hkv]
  · rw [if_neg hmem]
    have hk : k ∉ mapKeys m := by
      intro hkm
      apply hmem
      rw [List.any_eq_true]
      rw [mapKeys, List.mem_map] at hkm
      obtain ⟨kv, hkv, he⟩ := hkm
      exact ⟨kv, hkv, by simp [he]⟩
    rw [if_neg hk, mapKeys, mapKeys, List.map_append]
    rfl

theorem mapKeys_dictInsert_nodup {m : List (String × FileInfo)}
    (h : (mapKeys m).Nodup) (k : String) (v : FileInfo) :
    (mapKeys (dictInsert m k v)).Nodup := by
  rw [mapKeys_dictInsert]
  by_cases hk : k ∈ mapKeys m
  · rw [if_pos hk]
    exact h
  · rw [if_neg hk]
    rw [List.nodup_append]
    refine ⟨h, List.nodup_singleton k, ?_⟩
    intro a ha hb
    rw [List.mem_singleton] at hb
    exact hk (hb ▸ ha)

/-- The dict built by `check_integrity` from a scan has distinct keys. -/
theorem dictOfFiles_keys_nodup (files : List FileInfo) :
    (mapKeys (dictOfFiles files)).Nodup := by
  rw [dictOfFiles]
  suffices h : ∀ m : List (String × FileInfo), (mapKeys m).Nodup →
      (mapKeys (files.foldl (fun m f => dictInsert m f.path f) m)).Nodup by
    exact h [] (by simp [mapKeys])
  induction files with
  | nil =>
    intro m hm
    exact hm
  | cons f fs ih =>
    intro m hm
    rw [List.foldl_cons]
    exact ih _ (mapKeys_dictInsert_nodup hm f.path f)

/-- Diffing a distinct-key map against itself yields no change records. -/
theorem check_integrity_diff_self {m : List (String × FileInfo)}
    (hm : (mapKeys m).Nodup) : check_integrity_diff m m = [] := by
  rw [check_integrity_diff]
  have h1 : modifiedRemovedChanges m m = [] := by
    rw [modifiedRemovedChanges, List.filterMap_eq_nil_iff]
    intro kv hkv
    rw [mrcStep_eq_none_iff, unchangedEntry,
      lookupPath_of_mem_nodup hm hkv]
    simp
  have h2 : addedChanges m m = [] := by
    rw [addedChanges, List.filterMap_eq_nil_iff]
    intro kv hkv
    rw [addedStep_eq_none_iff, lookupPath_of_mem_nodup hm hkv]
    rfl
  rw [h1, h2]
  rfl

/-- Retrieving the rows of a freshly created baseline rebuilds exactly the
dict of the scanned files (fresh AUTOINCREMENT id, so no old row mixes
in). -/
theorem get_baseline_files_after_create
    (db : GuardianDatabase) (name path : String) (files : List FileInfo)
    (now : Nat)
    (hid : ∀ fr ∈ db.files, fr.baseline_id < db.next_baseline_id) :
    get_baseline_files (db_create_baseline db name path files now).2
      db.next_baseline_id = dictOfFiles files := by
  rw [db_create_baseline, get_baseline_files]
  simp only [List.filter_append]
  have hold : db.files.filter
      (fun r => r.baseline_id = db.next_baseline_id) = [] := by
    rw [List.filter_eq_nil_iff]
    intro r hr
    simp only [decide_eq_true_eq]
    exact Nat.ne_of_lt (hid r hr)
  have hnew : (files.map fun fi =>
      ({ baseline_id := db.next_baseline_id, file_path := fi.path,
         file_size := fi.size, modified_time := fi.modified_time,
         hash_sha256 := fi.hash_sha256, hash_sha1 := fi.hash_sha1,
         hash_md5 := fi.hash_md5, permissions := fi.permissions,
         inode := fi.inode } : FileRow)).filter
      (fun r => r.baseline_id = db.next_baseline_id) =
      files.map fun fi =>
      ({ baseline_id := db.next_baseline_id, file_path := fi.path,
         file_size := fi.size, modified_time := fi.modified_time,
         hash_sha256 := fi.hash_sha256, hash_sha1 := fi.hash_sha1,
         hash_md5 := fi.hash_md5, permissions := fi.permissions,
         inode := fi.inode } : FileRow) := by
    rw [List.filter_eq_self]
    intro r hr
    rw [List.mem_map] at hr
    obtain ⟨fi, _, rfl⟩ := hr
    simp
  rw [hold, hnew, List.nil_append, List.foldl_map]
  rfl

/-- Appending a strictly newer row makes it the maximum. -/
theorem maxByCreatedAt_append_newest {l : List BaselineRow}
    {r : BaselineRow} (h : ∀ x ∈ l, x.created_at < r.created_at) :
    maxByCreatedAt (l ++ [r]) = some r := by
  rw [maxByCreatedAt, List.foldl_append]
  cases hl : l with
  | nil => rfl
  | cons x xs =>
    have hne : l ≠ [] := by
      rw [hl]
      exact List.cons_ne_nil x xs
    obtain ⟨m, hm, hmem, hall⟩ := maxByCreatedAt_spec hne
    rw [← hl]
    rw [show l.foldl maxByCreatedAtStep none = maxByCreatedAt l from rfl,
      hm]
    simp only [List.foldl_cons, List.foldl_nil, maxByCreatedAtStep]
    rw [if_pos (h m hmem)]

/-- A freshly created baseline is the latest one for its path. -/
theorem get_latest_baseline_after_create
    (db : GuardianDatabase) (name path : String) (files : List FileInfo)
    (now : Nat)
    (hts : ∀ r ∈ db.baselines, r.created_at < now) :
    get_latest_baseline (db_create_baseline db name path files now).2 path =
      some db.next_baseline_id := by
  rw [get_latest_baseline, db_create_baseline]
  simp only [List.filter_append]
  have hone : ([({ id := db.next_baseline_id, name := name, path := path,
                   created_at := now, file_count := files.length,
                   total_size := (files.map (·.size)).sum } :
      BaselineRow)]).filter (fun r => r.path = path) =
      [({ id := db.next_baseline_id, name := name, path := path,
          created_at := now, file_count := files.length,
          total_size := (files.map (·.size)).sum } : BaselineRow)] := by
    simp
  rw [hone, maxByCreatedAt_append_newest]
  · rfl
  · intro x hx
    rw [List.mem_filter] at hx
    exact hts x hx.1

/-- **C9.** Running `check_integrity` immediately after `create_baseline` on
an unchanged filesystem yields zero change records: the persisted and
rescanned file sets agree path for path and digest for digest.  Hypotheses:
existing file rows predate the AUTOINCREMENT counter (a database invariant),
existing baselines predate the creation time, and the scan found at least
one file (otherwise no baseline is created at all). -/
theorem check_after_create_noop
    (s : GuardianScanner) (H : HashAlgs) (db : GuardianDatabase)
    (fs : FileSystem) (path name : String) (now : Nat)
    (hid : ∀ fr ∈ db.files, fr.baseline_id < db.next_baseline_id)
    (hts : ∀ r ∈ db.baselines, r.created_at < now)
    (hne : (scan_directory s H fs path).files ≠ []) :
    (guardian_check_integrity s H
      (guardian_create_baseline s H db fs path name now).2 fs path).1
      = [] := by
  have hcb : (guardian_create_baseline s H db fs path name now).2 =
      (db_create_baseline db name path
        ((scan_directory s H fs path).files) now).2 := by
    rw [guardian_create_baseline]
    simp only []
    rw [if_neg (by simpa using hne)]
  rw [hcb]
  have hlatest := get_latest_baseline_after_create db name path
    ((scan_directory s H fs path).files) now hts
  have heq : (guardian_check_integrity s H
      (db_create_baseline db name path
        ((scan_directory s H fs path).files) now).2 fs path).1 =
      check_integrity_diff
        (get_baseline_files
          (db_create_baseline db name path
            ((scan_directory s H fs path).files) now).2
          db.next_baseline_id)
        (dictOfFiles (scan_directory s H fs path).files) := by
    rw [guardian_check_integrity, hlatest]
    split
    next heqq => exact Option.noConfusion heqq
    next bid heqq =>
      obtain rfl : bid = db.next_baseline_id := (Option.some.inj heqq).symm
      cases hcz : (check_integrity_diff
          (get_baseline_files (db_create_baseline db name path
            (scan_directory s H fs path).files now).2 db.next_baseline_id)
          (dictOfFiles (scan_directory s H fs path).files)).isEmpty <;>
        simp [hcz]
  rw [heq, get_baseline_files_after_create db name path
    ((scan_directory s H fs path).files) now hid]
  exact check_integrity_diff_self
    (dictOfFiles_keys_nodup ((scan_directory s H fs path).files))

/-- Concrete instantiation of C9: baseline then immediate check on the demo
filesystem reports no changes. -/
theorem check_after_create_noop_witness :
    (guardian_check_integrity scannerDemo hashDemo
      (guardian_create_baseline scannerDemo hashDemo dbEmpty fsDemo "/r"
        "base" 5).2 fsDemo "/r").1 = [] :=
  check_after_create_noop scannerDemo hashDemo dbEmpty fsDemo "/r" "base" 5
    (by decide) (by decide) (by decide)


/-- Concrete instantiation of C10: a path with empty SHA-256 digests on both
sides yields no record, and a zero-change check writes nothing. -/
theorem check_integrity_empty_digests_and_no_write_witness :
    recordsFor (check_integrity_diff [("/e", fiEmptyDemo)]
      [("/e", fiEmptyDemo)]) "/e" = [] ∧
    (guardian_check_integrity scannerDemo hashDemo dbEmpty fsDemo "/r").2 =
      dbEmpty := by
  have h := check_integrity_empty_digests_and_no_write
    [("/e", fiEmptyDemo)] [("/e", fiEmptyDemo)] "/e" fiEmptyDemo fiEmptyDemo
    (by decide) (by decide) (by decide) (by decide) rfl rfl
  exact ⟨h.1, h.2 scannerDemo hashDemo dbEmpty fsDemo "/r" (by decide)⟩


/-! ## Claim C7: `_parse_size` values and the uncaught `OverflowError` -/

set_option exponentiation.threshold 1200 in
set_option maxRecDepth 16000 in
/-- **Claim C7 (code bug).** `_parse_size` is not total: when the numeric
prefix reads as an infinite float — the literal `inf`, or an exponent past
the double range — `int(float(number) * multiplier)` raises `OverflowError`,
which the function's `except ValueError` handlers (lines 282 and 288) do not
catch, so the call raises instead of returning a byte count; the function's
own comment `# If parsing fails, return default` and the claim say every
failure should yield the 100 MB default.  The remaining conjuncts evaluate
the claim's intended behaviour where the code does realise it: suffix
multiplication with float prefixes (including exponents and underscore
separators), bare integer byte counts, and the `ValueError` fallback to
`100 * 1024 * 1024` for malformed strings and NaN. -/
theorem parse_size_inf_overflow :
    parse_size "infB" = .overflowError ∧
    parse_size "-infGB" = .overflowError ∧
    parse_size "1e999KB" = .overflowError ∧
    parse_size "8e307KB" = .overflowError ∧
    parse_size "100MB" = .ok 104857600 ∧
    parse_size "1.5KB" = .ok 1536 ∧
    parse_size "1e3KB" = .ok 1024000 ∧
    parse_size "1E-2KB" = .ok 10 ∧
    parse_size "1_0KB" = .ok 10240 ∧
    parse_size "+3.25KB" = .ok 3328 ∧
    parse_size "-2KB" = .ok (-2048) ∧
    parse_size "100" = .ok 100 ∧
    parse_size "1_0" = .ok 10 ∧
    parse_size "nanB" = .ok 104857600 ∧
    parse_size "abcMB" = .ok 104857600 ∧
    parse_size "1__0KB" = .ok 104857600 ∧
    parse_size "1e3" = .ok 104857600 ∧
    parse_size "abc" = .ok 104857600 ∧
    parse_size "" = .ok 104857600 := by decide
